import Mathlib

/-!
Verification of the seam-carving engine of this repository.

The file embeds the code of src/carve.rs (the `Carver`) shallowly:
pure Lean functions over an explicit grid state.  The `Grid` and
`PixelEnergyPoint` helper types that `carve.rs` imports from the
`grid` and `energy` modules are not present under src/ (src/grid.rs
holds the separate experimental `EnergyGrid` module instead); their
operations are modelled from the specification, each marked with a
doc comment starting with the words Modelled from the spec.
Machine integers (`u8`, `u16`, `u32`, `usize`) are modelled as `Nat`,
with an explicit reduction wherever the machine width is observable:
the `u16`/`u8` casts of `average_pixels` carry `% 65536` and `% 256`,
and the `u32` path-cost accumulation of `calculate_path_cost` carries
`% 2^32` — a single cell's energy is bounded by 8 * 255^2 < 2^32 for
`u8` channels, but the running sum of energies down a tall image is
not, so the `u32` addition there can wrap.
-/

namespace SeamCarve

/-- An RGBA pixel: four channels, each a `u8` value (an invariant `< 256`
carried as a hypothesis where it matters, not by the type). -/
structure Pixel where
  c0 : Nat
  c1 : Nat
  c2 : Nat
  c3 : Nat
deriving DecidableEq, Repr

/-- The cell type `PixelEnergyPoint` of the `energy` module:
a pixel plus the derived `energy` and `path_cost` scalars and the
`original_position` tag used by the grow simulation. -/
structure PEP where
  pixel : Pixel
  energy : Nat
  path_cost : Nat
  original_position : Nat × Nat
deriving DecidableEq, Repr

/-- An abstract decoded pixel buffer (the `DynamicImage` collaborator):
dimensions plus a total pixel lookup (out-of-range lookups are junk that
no in-bounds computation consults). -/
structure Image where
  width : Nat
  height : Nat
  pix : Nat → Nat → Pixel

/-- Modelled from the spec: the `PixelGrid` component (the missing
`Grid<PixelEnergyPoint>` of the `grid` module), a `width` by `height`
matrix of cells.  The cell store is a total function; cells outside
the current bounds are junk that the in-bounds operations never read. -/
structure Grid where
  width : Nat
  height : Nat
  cells : Nat → Nat → PEP

/-- The `Carver` struct of src/carve.rs: the grid plus the accumulated
list of removed/inserted debug points. -/
structure Carver where
  grid : Grid
  removed_points : List (Nat × Nat)

/-- Modelled from the spec: pointwise cell update, the effect of a single
`get_mut` assignment on the missing `Grid`. -/
def Grid.set (g : Grid) (x y : Nat) (p : PEP) : Grid :=
  { g with cells := fun a b => if a = x ∧ b = y then p else g.cells a b }

/-- Modelled from the spec: `get_row` of the missing `Grid`, the cells of
row `y` in column order. -/
def Grid.get_row (g : Grid) (y : Nat) : List PEP :=
  (List.range g.width).map (fun x => g.cells x y)

/-- Modelled from the spec: `adjacent(x,y) -> (left, right, up, down)`
with the section 4.1 edge policy — a missing neighbor of a pair is
substituted by the opposite existing neighbor of the same pair, so the
gradient along that axis is 0 at the border; no wrap-around. -/
def Grid.get_adjacent (g : Grid) (x y : Nat) : PEP × PEP × PEP × PEP :=
  let left := if x = 0 then g.cells (x + 1) y else g.cells (x - 1) y
  let right := if x + 1 < g.width then g.cells (x + 1) y else g.cells (x - 1) y
  let up := if y = 0 then g.cells x (y + 1) else g.cells x (y - 1)
  let down := if y + 1 < g.height then g.cells x (y + 1) else g.cells x (y - 1)
  (left, right, up, down)

/-- Modelled from the spec: `parents(x,y)`, the row-above neighbors at
columns x-1, x, x+1 that exist, in column order, each with its
coordinates (the missing `get_parents_indexed`). -/
def Grid.get_parents_indexed (g : Grid) (x y : Nat) : List (Nat × Nat × PEP) :=
  if y = 0 then []
  else
    (if x = 0 then [] else [(x - 1, y - 1, g.cells (x - 1) (y - 1))]) ++
      ([(x, y - 1, g.cells x (y - 1))] ++
        (if x + 1 < g.width then [(x + 1, y - 1, g.cells (x + 1) (y - 1))] else []))

/-- Modelled from the spec: `rotate()` transposes the grid — swaps width
and height and maps the cell at (x,y) to (y,x). -/
def Grid.rotate (g : Grid) : Grid :=
  { width := g.height, height := g.width, cells := fun x y => g.cells y x }

/-- Modelled from the spec: `append_column()` grows the width by exactly
one column; the content of the appended column is unspecified by the
spec and is modelled as the junk the total cell store already holds. -/
def Grid.add_last_column (g : Grid) : Grid :=
  { g with width := g.width + 1 }

/-- Modelled from the spec: `remove_last_column()` shrinks the width by
exactly one column. -/
def Grid.remove_last_column (g : Grid) : Grid :=
  { g with width := g.width - 1 }

/-- Modelled from the spec: within row `y`, shift the cells after column
`x` one position left, closing the gap at `x` (section 4.3). -/
def shift_row_left_from_point (g : Grid) (x y : Nat) : Grid :=
  { g with cells := fun a b => if b = y ∧ x ≤ a then g.cells (a + 1) b else g.cells a b }

/-- Modelled from the spec: within row `y`, shift the cells after column
`x` one position right, opening a gap at `x + 1` (section 4.5 step 4);
the gap cell is modelled as keeping its stale value until written. -/
def shift_row_right_from_point (g : Grid) (x y : Nat) : Grid :=
  { g with cells := fun a b => if b = y ∧ x + 2 ≤ a then g.cells (a - 1) b else g.cells a b }

/-- Modelled from the spec: building the initial grid from a decoded
image; derived fields start at 0 and each cell is tagged with its own
coordinates (section 4.4 records removed points by their original,
pre-shift coordinates). -/
def Grid.from_image (img : Image) : Grid :=
  { width := img.width
    height := img.height
    cells := fun x y =>
      { pixel := img.pix x y, energy := 0, path_cost := 0, original_position := (x, y) } }

/-- Absolute difference of two channel values. -/
def natAbsDiff (a b : Nat) : Nat := max a b - min a b

/-- Modelled from the spec: the square gradient of two pixels, the sum
over the four channels of the squared absolute difference of the
corresponding channel values (the missing `energy` module). -/
def pixel_square_gradient (p q : Pixel) : Nat :=
  natAbsDiff p.c0 q.c0 ^ 2 + natAbsDiff p.c1 q.c1 ^ 2 +
    natAbsDiff p.c2 q.c2 ^ 2 + natAbsDiff p.c3 q.c3 ^ 2

/-- Modelled from the spec: `PixelEnergyPoint::square_gradient`, the
square gradient of the two cells' pixels. -/
def PEP.square_gradient (p q : PEP) : Nat :=
  pixel_square_gradient p.pixel q.pixel

/-- The wrap-around per-pixel energy of the experimental `EnergyGrid`
module, src/grid.rs lines 83-95: out-of-bounds neighbors wrap to the
far edge of the image.  The `Carver` pipeline never calls this
function (the other `EnergyGrid` operations are unimplemented stubs). -/
def energy_grid_pixel_energy (img : Image) (x y : Nat) : Nat :=
  let left_x := if x = 0 then img.width - 1 else x - 1
  let right_x := (x + 1) % img.width
  let up_y := if y = 0 then img.height - 1 else y - 1
  let down_y := (y + 1) % img.height
  pixel_square_gradient (img.pix left_x y) (img.pix right_x y) +
    pixel_square_gradient (img.pix x up_y) (img.pix x down_y)

/-- Rust `Iterator::min_by_key` over a list: the first element attaining
the minimal key (documented std behavior: on ties the first minimal
element is returned), `none` on an empty iterator. -/
def min_by_key (key : α → Nat) : List α → Option α
  | [] => none
  | a :: l => some (l.foldl (fun b c => if key c < key b then c else b) a)

/-- Rust `Iterator::min` over a list of `u32` values. -/
def min_u32 : List Nat → Option Nat
  | [] => none
  | a :: l => some (l.foldl Nat.min a)

/-- Carver::calculate_pixel_energy (src/carve.rs lines 149-157): write
the cell's energy as the horizontal plus vertical square gradient of
its adjacent pairs. -/
def calculate_pixel_energy (g : Grid) (x y : Nat) : Grid :=
  let t := g.get_adjacent x y
  g.set x y
    { g.cells x y with energy := t.1.square_gradient t.2.1 + t.2.2.1.square_gradient t.2.2.2 }

/-- Carver::get_min_parent_path_cost (src/carve.rs lines 165-172): the
minimum `path_cost` among the existing parents, 0 when there are none. -/
def get_min_parent_path_cost (g : Grid) (x y : Nat) : Nat :=
  (min_u32 ((g.get_parents_indexed x y).map (fun t => t.2.2.path_cost))).getD 0

/-- Carver::calculate_path_cost (src/carve.rs lines 159-163): write the
cell's `path_cost` as minimum parent path cost plus its energy.  The
addition is performed on `u32` values, so it is reduced modulo 2^32:
the accumulated cost of a tall high-contrast image exceeds the `u32`
range and wraps. -/
def calculate_path_cost (g : Grid) (x y : Nat) : Grid :=
  let m := get_min_parent_path_cost g x y
  let e := (g.cells x y).energy
  g.set x y { g.cells x y with path_cost := (m + e) % 4294967296 }

/-- The body of the inner loop of Carver::calculate_energy: compute the
pixel energy and then the path cost of one cell. -/
def cost_pass_cell (y : Nat) (g : Grid) (x : Nat) : Grid :=
  calculate_path_cost (calculate_pixel_energy g x y) x y

/-- Carver::calculate_energy (src/carve.rs lines 48-55): the full cost
pass — for each row top to bottom, for each column left to right,
compute the pixel energy and then the path cost of that cell. -/
def calculate_energy (g : Grid) : Grid :=
  (List.range g.height).foldl
    (fun g1 y => (List.range g1.width).foldl (cost_pass_cell y) g1) g

/-- Carver::get_path_start (src/carve.rs lines 81-90): the cell of the
last row minimizing `path_cost`, ties broken by lowest column index
(Rust `min_by_key` keeps the first minimal element).  The `expect` on
an empty bottom row is modelled by a junk result that no theorem uses
(all theorems assume a nonempty grid). -/
def get_path_start (g : Grid) : Nat × Nat :=
  let y := g.height - 1
  match min_by_key (fun t : Nat × PEP => t.2.path_cost) (g.get_row y).enum with
  | some t => (t.1, y)
  | none => (0, y)

/-- Carver::get_parent_with_min_path_cost (src/carve.rs lines 174-180):
the coordinates of the parent with minimum `path_cost`, ties broken by
the first (leftmost) parent in the indexed parent list. -/
def get_parent_with_min_path_cost (g : Grid) (x y : Nat) : Option (Nat × Nat) :=
  (min_by_key (fun t : Nat × Nat × PEP => t.2.2.path_cost) (g.get_parents_indexed x y)).map
    (fun t => (t.1, t.2.1))

/-- The loop body of Carver::find_path with explicit fuel; the fuel is
chosen as the starting row index, which the parent step strictly
decreases, so the fuel-exhaustion branch is never taken from in-bounds
starts (the Rust loop runs until a cell has no parent). -/
def find_path_go (g : Grid) : Nat → Nat → Nat → List (Nat × Nat)
  | x, y, fuel =>
    match fuel, get_parent_with_min_path_cost g x y with
    | _, none => [(x, y)]
    | 0, some _ => [(x, y)]
    | fuel + 1, some p => (x, y) :: find_path_go g p.1 p.2 fuel

/-- Carver::find_path (src/carve.rs lines 92-101): backtrack from the
start cell through minimum-cost parents until a cell with no parent. -/
def find_path (g : Grid) (start_x start_y : Nat) : List (Nat × Nat) :=
  find_path_go g start_x start_y start_y

/-- Adjacent-column predicate on a point list: the column indices of
consecutive points differ by at most 1. -/
def cols_adjacent : List (Nat × Nat) → Prop
  | [] => True
  | [_] => True
  | p :: q :: t => (p.1 ≤ q.1 + 1 ∧ q.1 ≤ p.1 + 1) ∧ cols_adjacent (q :: t)

/-- Carver::reset_positions (src/carve.rs lines 132-138): set every
in-bounds cell's `original_position` to its own coordinates.  The Rust
double loop performs independent pointwise writes, so it is embedded as
the equivalent pointwise functional update. -/
def reset_positions (g : Grid) : Grid :=
  { g with cells := fun x y =>
      if x < g.width ∧ y < g.height then { g.cells x y with original_position := (x, y) }
      else g.cells x y }

/-- The body of the Carver::remove_path loop (src/carve.rs lines
196-200): record the cell's `original_position`, then close the gap in
its row. -/
def remove_step (acc : Carver) (p : Nat × Nat) : Carver :=
  { grid := shift_row_left_from_point acc.grid p.1 p.2
    removed_points := acc.removed_points ++ [(acc.grid.cells p.1 p.2).original_position] }

/-- Carver::remove_path (src/carve.rs lines 195-202): for each seam
point in order, record the cell's `original_position` and close the gap
in its row; finally drop the last column. -/
def remove_path (c : Carver) (points : List (Nat × Nat)) : Carver :=
  let c1 := points.foldl remove_step c
  { c1 with grid := c1.grid.remove_last_column }

/-- One iteration of the Carver::shrink_distance loop (src/carve.rs
lines 140-147): full cost pass, seam extraction, seam removal. -/
def shrink_step (c : Carver) : Carver :=
  let g := calculate_energy c.grid
  let s := get_path_start g
  remove_path { c with grid := g } (find_path g s.1 s.2)

/-- Carver::shrink_distance (src/carve.rs lines 140-147): remove the
cheapest seam `distance` times, recomputing costs each time. -/
def shrink_distance (c : Carver) : Nat → Carver
  | 0 => c
  | d + 1 => shrink_distance (shrink_step c) d

/-- Stable insertion of a point into a list sorted by descending first
component (helper for the Rust `sort_by` call below). -/
def insert_desc_x (p : Nat × Nat) : List (Nat × Nat) → List (Nat × Nat)
  | [] => [p]
  | q :: l => if p.1 < q.1 then q :: insert_desc_x p l else p :: q :: l

/-- Rust stable `sort_by` with comparator `b.0.cmp(&a.0)`: sort by
descending first component, equal keys keeping their order. -/
def sort_desc_x (l : List (Nat × Nat)) : List (Nat × Nat) :=
  l.foldr insert_desc_x []

/-- Carver::get_points_removed_by_shrink (src/carve.rs lines 117-130):
clone the carver, clear its recorded points, reset the position tags,
run the shrink simulation, and return its recorded points sorted by
descending column. -/
def get_points_removed_by_shrink (c : Carver) (distance : Nat) : List (Nat × Nat) :=
  sort_desc_x
    (shrink_distance { grid := reset_positions c.grid, removed_points := [] } distance).removed_points

/-- average_pixels channel arithmetic (src/carve.rs lines 224-229): the
`u8` channels are widened to `u16` (lossless), added (reduced modulo
2 to the 16 since the sum is a `u16`), halved with integer division,
and cast back to `u8` (reduced modulo 256). -/
def avg_channel (a b : Nat) : Nat := ((a + b) % 65536 / 2) % 256

/-- average_pixels (src/carve.rs lines 224-229): channel-wise average of
two pixels. -/
def average_pixels (p1 p2 : Pixel) : Pixel :=
  { c0 := avg_channel p1.c0 p2.c0
    c1 := avg_channel p1.c1 p2.c1
    c2 := avg_channel p1.c2 p2.c2
    c3 := avg_channel p1.c3 p2.c3 }

/-- The spec's description of the inserted pixel, for comparison with
the code's average_pixels: the per-channel average of the two pixels
with integer division rounding down. -/
def spec_average_pixels (p1 p2 : Pixel) : Pixel :=
  { c0 := (p1.c0 + p2.c0) / 2
    c1 := (p1.c1 + p2.c1) / 2
    c2 := (p1.c2 + p2.c2) / 2
    c3 := (p1.c3 + p2.c3) / 2 }

/-- Carver::average_pixel_from_neighbors (src/carve.rs lines 189-193):
average the given left pixel with the pixel at (x+1, y). -/
def average_pixel_from_neighbors (g : Grid) (x y : Nat) (left : Pixel) : Pixel :=
  average_pixels left (g.cells (x + 1) y).pixel

/-- Carver::add_point (src/carve.rs lines 182-187): record the cell's
`original_position`, shift the row right from the point, and write the
new pixel into the gap at (x+1, y); the written cell's derived fields
follow the modelled `From` conversion (zeros). -/
def add_point (c : Carver) (x y : Nat) (px : Pixel) : Carver :=
  { grid := (shift_row_right_from_point c.grid x y).set (x + 1) y
      { pixel := px, energy := 0, path_cost := 0, original_position := (0, 0) }
    removed_points := c.removed_points ++ [(c.grid.cells x y).original_position] }

/-- Iterated Grid::add_last_column, the first loop of grow_distance. -/
def add_columns (g : Grid) : Nat → Grid
  | 0 => g
  | d + 1 => add_columns g.add_last_column d

/-- The body of the insertion loop of Carver::grow_distance (src/carve.rs
lines 110-114): read the left pixel, average it with its right
neighbor, and insert the averaged pixel at the point. -/
def grow_step (acc : Carver) (p : Nat × Nat) : Carver :=
  let left := (acc.grid.cells p.1 p.2).pixel
  add_point acc p.1 p.2 (average_pixel_from_neighbors acc.grid p.1 p.2 left)

/-- Carver::grow_distance (src/carve.rs lines 103-115): compute the
points a shrink of the same distance would remove, widen the grid by
`distance` columns, then insert an averaged pixel at each point. -/
def grow_distance (c : Carver) (distance : Nat) : Carver :=
  let points := get_points_removed_by_shrink c distance
  let c1 : Carver := { c with grid := add_columns c.grid distance }
  points.foldl grow_step c1

/-- Carver::rotate_removed_points (src/carve.rs lines 208-212): swap the
components of every recorded point.  No call site exists in the file. -/
def rotate_removed_points (c : Carver) : Carver :=
  { c with removed_points := c.removed_points.map (fun p => (p.2, p.1)) }

/-- Carver::rebuild_image (src/carve.rs lines 214-221): read every cell's
pixel into a fresh output buffer of the grid's dimensions. -/
def rebuild_image (g : Grid) : Image :=
  { width := g.width, height := g.height, pix := fun x y => (g.cells x y).pixel }

/-- Carver::new (src/carve.rs lines 13-19): build the grid from the
decoded image, with no recorded points.  The constructor is total: the
Rust code performs no dimension check and its return type has no
failure channel. -/
def Carver.new (img : Image) : Carver :=
  { grid := Grid.from_image img, removed_points := [] }

/-- Carver::get_removed_points (src/carve.rs lines 44-46): a clone of
the accumulated removed-point list; the receiver is read-only. -/
def Carver.get_removed_points (c : Carver) : List (Nat × Nat) :=
  c.removed_points

/-- The width phase of Carver::resize (src/carve.rs lines 25-29): grow
or shrink horizontally to the target width, a no-op when the target
equals the current width. -/
def resize_width_phase (c : Carver) (width : Nat) : Carver :=
  if c.grid.width < width then grow_distance c (width - c.grid.width)
  else if width < c.grid.width then shrink_distance c (c.grid.width - width)
  else c

/-- The height phase of Carver::resize (src/carve.rs lines 31-39),
parameterized by the initially read height `ih`: rotate, grow or
shrink to the target height with the horizontal machinery, rotate
back; a no-op when the target equals `ih`. -/
def resize_height_phase (c1 : Carver) (ih height : Nat) : Carver :=
  if ih < height then
    let cr := { c1 with grid := c1.grid.rotate }
    let cg := grow_distance cr (height - ih)
    { cg with grid := cg.grid.rotate }
  else if height < ih then
    let cr := { c1 with grid := c1.grid.rotate }
    let cs := shrink_distance cr (ih - height)
    { cs with grid := cs.grid.rotate }
  else c1

/-- Carver::resize (src/carve.rs lines 21-42): read the initial
dimensions, adjust the width, then adjust the height, and rebuild the
output image.  The mutated carver is returned alongside the image. -/
def Carver.resize (c : Carver) (width height : Nat) : Carver × Image :=
  let ih := c.grid.height
  let c2 := resize_height_phase (resize_width_phase c width) ih height
  (c2, rebuild_image c2.grid)

/-- The energy value the cost pass assigns to cell (x,y): horizontal
plus vertical square gradient of the adjacent pairs, read directly from
the grid (a pure function of the pixel fields). -/
def energyOf (g : Grid) (x y : Nat) : Nat :=
  let t := g.get_adjacent x y
  t.1.square_gradient t.2.1 + t.2.2.1.square_gradient t.2.2.2

/-- A concrete 3 by 2 test image for witnesses. -/
def img32 : Image :=
  { width := 3, height := 2
    pix := fun x y => { c0 := 7 * x + 11 * y, c1 := 0, c2 := 0, c3 := 255 } }

/-- A concrete 2 by 2 test image for witnesses. -/
def img22 : Image :=
  { width := 2, height := 2
    pix := fun x y => { c0 := 5 * x + 3 * y, c1 := 0, c2 := 0, c3 := 255 } }

/-- A concrete 2 by 3 test image for witnesses. -/
def img23 : Image :=
  { width := 2, height := 3
    pix := fun x y => { c0 := 4 * x + 9 * y, c1 := 0, c2 := 0, c3 := 255 } }

/-- A concrete 0 by 0 input buffer (every pixel lookup is junk). -/
def img00 : Image :=
  { width := 0, height := 0, pix := fun _ _ => { c0 := 0, c1 := 0, c2 := 0, c3 := 0 } }

/-- Period-4 row stripes: two all-black rows, then two all-white rows.
The rows one above and one below any cell always lie in opposite
stripes, so every interior vertical gradient is maximal (4 * 255^2). -/
def stripe_pixel (y : Nat) : Pixel :=
  if y % 4 < 2 then { c0 := 0, c1 := 0, c2 := 0, c3 := 0 }
  else { c0 := 255, c1 := 255, c2 := 255, c3 := 255 }

/-- A 1 by 16600 grid of period-4 row stripes (a reachable u8 image:
every channel is 0 or 255).  Every interior cell has energy 260100, so
the accumulated u32 path cost passes 2^32 around row 16513. -/
def tall_grid : Grid :=
  { width := 1
    height := 16600
    cells := fun _ y =>
      { pixel := stripe_pixel y, energy := 0, path_cost := 0, original_position := (0, 0) } }

/-- Position-tag invariant tying a working grid to the reference grid
`g0` it was shrunk from: same height, width not larger, and every
in-bounds cell is tagged with a coordinate in its own row, at or to the
right of its current column, in bounds for `g0`, and holding the pixel
`g0` holds at that coordinate (the cell's original, pre-shift position). -/
@[reducible]
def TagsOk (g0 g : Grid) : Prop :=
  g.height = g0.height ∧ g.width ≤ g0.width ∧
    ∀ x < g.width, ∀ y < g.height,
      (g.cells x y).original_position.2 = y ∧
        x ≤ (g.cells x y).original_position.1 ∧
        (g.cells x y).original_position.1 < g0.width ∧
        (g0.cells (g.cells x y).original_position.1 y).pixel = (g.cells x y).pixel

/-! Basic facts about grid updates and the cost pass. -/

theorem Grid.set_width (g : Grid) (x y : Nat) (p : PEP) : (g.set x y p).width = g.width := rfl

theorem Grid.set_height (g : Grid) (x y : Nat) (p : PEP) : (g.set x y p).height = g.height := rfl

theorem Grid.set_cells (g : Grid) (x y : Nat) (p : PEP) (a b : Nat) :
    (g.set x y p).cells a b = if a = x ∧ b = y then p else g.cells a b := rfl

theorem cost_pass_cell_width (y : Nat) (g : Grid) (x : Nat) :
    (cost_pass_cell y g x).width = g.width := rfl

theorem cost_pass_cell_height (y : Nat) (g : Grid) (x : Nat) :
    (cost_pass_cell y g x).height = g.height := rfl

theorem cost_pass_cell_pixel (y : Nat) (g : Grid) (x a b : Nat) :
    ((cost_pass_cell y g x).cells a b).pixel = (g.cells a b).pixel := by
  simp only [cost_pass_cell, calculate_path_cost, calculate_pixel_energy, Grid.set_cells]
  by_cases h : a = x ∧ b = y
  · obtain ⟨h1, h2⟩ := h
    subst h1; subst h2
    simp
  · simp [h]

theorem cost_pass_cell_tag (y : Nat) (g : Grid) (x a b : Nat) :
    ((cost_pass_cell y g x).cells a b).original_position =
      (g.cells a b).original_position := by
  simp only [cost_pass_cell, calculate_path_cost, calculate_pixel_energy, Grid.set_cells]
  by_cases h : a = x ∧ b = y
  · obtain ⟨h1, h2⟩ := h
    subst h1; subst h2
    simp
  · simp [h]

theorem cost_pass_cell_other (y : Nat) (g : Grid) (x a b : Nat) (h : ¬(a = x ∧ b = y)) :
    (cost_pass_cell y g x).cells a b = g.cells a b := by
  simp only [cost_pass_cell, calculate_path_cost, calculate_pixel_energy, Grid.set_cells]
  simp [h]

theorem gmppc_congr (g1 g2 : Grid) (x y : Nat) (hW : g1.width = g2.width)
    (hrow : ∀ a, 1 ≤ y → g1.cells a (y - 1) = g2.cells a (y - 1)) :
    get_min_parent_path_cost g1 x y = get_min_parent_path_cost g2 x y := by
  cases y with
  | zero => simp [get_min_parent_path_cost, Grid.get_parents_indexed]
  | succ k =>
    have h1 : ∀ a, g1.cells a k = g2.cells a k := fun a => by
      simpa using hrow a (Nat.succ_le_succ (Nat.zero_le k))
    simp only [get_min_parent_path_cost, Grid.get_parents_indexed, hW, Nat.succ_sub_one]
    simp [h1]

theorem energyOf_congr (g1 g2 : Grid) (x y : Nat) (hW : g1.width = g2.width)
    (hH : g1.height = g2.height)
    (hpix : ∀ a b, (g1.cells a b).pixel = (g2.cells a b).pixel) :
    energyOf g1 x y = energyOf g2 x y := by
  simp only [energyOf, Grid.get_adjacent, PEP.square_gradient, hW, hH]
  split_ifs <;> simp [hpix]

theorem cost_pass_cell_at (y : Nat) (g : Grid) (x : Nat) :
    ((cost_pass_cell y g x).cells x y).energy = energyOf g x y ∧
      ((cost_pass_cell y g x).cells x y).path_cost =
        (get_min_parent_path_cost g x y + energyOf g x y) % 4294967296 := by
  have hg1 : (calculate_pixel_energy g x y).cells x y =
      { g.cells x y with energy := energyOf g x y } := by
    simp [calculate_pixel_energy, Grid.set_cells, energyOf]
  have hm : get_min_parent_path_cost (calculate_pixel_energy g x y) x y =
      get_min_parent_path_cost g x y := by
    refine gmppc_congr _ _ x y rfl (fun a hy => ?_)
    simp only [calculate_pixel_energy, Grid.set_cells]
    have : ¬(a = x ∧ y - 1 = y) := by
      rintro ⟨_, h2⟩
      omega
    simp [this]
  constructor
  · simp [cost_pass_cell, calculate_path_cost, Grid.set_cells, hg1]
  · simp [cost_pass_cell, calculate_path_cost, Grid.set_cells, hg1, hm]

/-- Row pass invariant: folding the cost-pass cell step over columns
0..n-1 of row `y` preserves dimensions, pixels and tags, leaves every
other cell untouched, and finalizes the processed cells of row `y`. -/
theorem row_pass_spec (g : Grid) (y : Nat) (n : Nat) :
    (((List.range n).foldl (cost_pass_cell y) g).width = g.width ∧
      ((List.range n).foldl (cost_pass_cell y) g).height = g.height) ∧
    (∀ a b, (((List.range n).foldl (cost_pass_cell y) g).cells a b).pixel = (g.cells a b).pixel ∧
      (((List.range n).foldl (cost_pass_cell y) g).cells a b).original_position =
        (g.cells a b).original_position) ∧
    (∀ a b, (b ≠ y ∨ n ≤ a) → ((List.range n).foldl (cost_pass_cell y) g).cells a b = g.cells a b) ∧
    (∀ a, a < n →
      ((((List.range n).foldl (cost_pass_cell y) g).cells a y).energy = energyOf g a y ∧
        (((List.range n).foldl (cost_pass_cell y) g).cells a y).path_cost =
          (get_min_parent_path_cost g a y + energyOf g a y) % 4294967296)) := by
  induction n with
  | zero =>
    refine ⟨⟨rfl, rfl⟩, fun a b => ⟨rfl, rfl⟩, fun a b _ => rfl, fun a ha => absurd ha (by omega)⟩
  | succ n ih =>
    obtain ⟨⟨ihW, ihH⟩, ihPT, ihOther, ihDone⟩ := ih
    have hfold : (List.range (n + 1)).foldl (cost_pass_cell y) g =
        cost_pass_cell y ((List.range n).foldl (cost_pass_cell y) g) n := by
      rw [List.range_succ, List.foldl_append]
      rfl
    set H := (List.range n).foldl (cost_pass_cell y) g with hH
    rw [hfold]
    refine ⟨⟨by rw [cost_pass_cell_width, ihW], by rw [cost_pass_cell_height, ihH]⟩,
      ?_, ?_, ?_⟩
    · intro a b
      exact ⟨by rw [cost_pass_cell_pixel, (ihPT a b).1], by rw [cost_pass_cell_tag, (ihPT a b).2]⟩
    · intro a b hab
      have h1 : ¬(a = n ∧ b = y) := by
        rcases hab with h | h
        · rintro ⟨_, h2⟩; exact h h2
        · rintro ⟨h1, _⟩; omega
      rw [cost_pass_cell_other y H n a b h1]
      exact ihOther a b (by rcases hab with h | h; exact Or.inl h; exact Or.inr (by omega))
    · intro a ha
      by_cases han : a = n
      · subst han
        have h1 := cost_pass_cell_at y H a
        have hE : energyOf H a y = energyOf g a y :=
          energyOf_congr H g a y ihW ihH (fun c d => (ihPT c d).1)
        have hM : get_min_parent_path_cost H a y = get_min_parent_path_cost g a y := by
          refine gmppc_congr H g a y ihW (fun c hy => ?_)
          exact ihOther c (y - 1) (Or.inl (by omega))
        exact ⟨by rw [h1.1, hE], by rw [h1.2, hE, hM]⟩
      · have h1 : ¬(a = n ∧ y = y) := by rintro ⟨h2, _⟩; exact han h2
        rw [cost_pass_cell_other y H n a y h1]
        exact ihDone a (by omega)

/-- Outer pass invariant: folding the row pass over rows 0..k-1
preserves dimensions, pixels and tags, leaves rows at or beyond k
untouched, and establishes the path-cost recurrence on rows below k. -/
theorem outer_pass_spec (g : Grid) (k : Nat) :
    (((List.range k).foldl (fun g1 y => (List.range g1.width).foldl (cost_pass_cell y) g1) g).width
        = g.width ∧
      ((List.range k).foldl (fun g1 y => (List.range g1.width).foldl (cost_pass_cell y) g1)
          g).height = g.height) ∧
    (∀ a b,
      (((List.range k).foldl (fun g1 y => (List.range g1.width).foldl (cost_pass_cell y) g1)
            g).cells a b).pixel = (g.cells a b).pixel ∧
        (((List.range k).foldl (fun g1 y => (List.range g1.width).foldl (cost_pass_cell y) g1)
              g).cells a b).original_position = (g.cells a b).original_position) ∧
    (∀ a b, k ≤ b →
      ((List.range k).foldl (fun g1 y => (List.range g1.width).foldl (cost_pass_cell y) g1)
          g).cells a b = g.cells a b) ∧
    (∀ a b, a < g.width → b < k →
      ((((List.range k).foldl (fun g1 y => (List.range g1.width).foldl (cost_pass_cell y) g1)
            g).cells a b).energy = energyOf g a b ∧
        (((List.range k).foldl (fun g1 y => (List.range g1.width).foldl (cost_pass_cell y) g1)
              g).cells a b).path_cost =
          (get_min_parent_path_cost
              ((List.range k).foldl (fun g1 y => (List.range g1.width).foldl (cost_pass_cell y) g1)
                g) a b +
            (((List.range k).foldl
                  (fun g1 y => (List.range g1.width).foldl (cost_pass_cell y) g1) g).cells a
                b).energy) % 4294967296)) := by
  induction k with
  | zero =>
    exact ⟨⟨rfl, rfl⟩, fun a b => ⟨rfl, rfl⟩, fun a b _ => rfl, fun a b _ hb => absurd hb (by omega)⟩
  | succ k ih =>
    obtain ⟨⟨ihW, ihH⟩, ihPT, ihRows, ihDone⟩ := ih
    have hfold : (List.range (k + 1)).foldl
          (fun g1 y => (List.range g1.width).foldl (cost_pass_cell y) g1) g =
        (List.range ((List.range k).foldl
              (fun g1 y => (List.range g1.width).foldl (cost_pass_cell y) g1) g).width).foldl
          (cost_pass_cell k)
          ((List.range k).foldl (fun g1 y => (List.range g1.width).foldl (cost_pass_cell y) g1)
            g) := by
      rw [List.range_succ, List.foldl_append]
      rfl
    set G := (List.range k).foldl (fun g1 y => (List.range g1.width).foldl (cost_pass_cell y) g1) g
      with hG
    rw [hfold]
    obtain ⟨⟨rW, rH⟩, rPT, rOther, rDone⟩ := row_pass_spec G k G.width
    refine ⟨⟨by rw [rW, ihW], by rw [rH, ihH]⟩, ?_, ?_, ?_⟩
    · intro a b
      exact ⟨by rw [(rPT a b).1, (ihPT a b).1], by rw [(rPT a b).2, (ihPT a b).2]⟩
    · intro a b hb
      rw [rOther a b (Or.inl (by omega))]
      exact ihRows a b (by omega)
    · intro a b haw hb
      by_cases hbk : b = k
      · subst hbk
        have ha : a < G.width := by rw [ihW]; exact haw
        have h1 := rDone a ha
        have hE : energyOf G a b = energyOf g a b :=
          energyOf_congr G g a b ihW ihH (fun c d => (ihPT c d).1)
        have hM : get_min_parent_path_cost ((List.range G.width).foldl (cost_pass_cell b) G) a b =
            get_min_parent_path_cost G a b := by
          refine gmppc_congr _ G a b rW (fun c hy => ?_)
          exact rOther c (b - 1) (Or.inl (by omega))
        refine ⟨by rw [h1.1, hE], ?_⟩
        rw [h1.2, h1.1, hM]
      · have hb1 : b < k := by omega
        have hcell : ((List.range G.width).foldl (cost_pass_cell k) G).cells a b = G.cells a b :=
          rOther a b (Or.inl hbk)
        have hM : get_min_parent_path_cost ((List.range G.width).foldl (cost_pass_cell k) G) a b =
            get_min_parent_path_cost G a b := by
          refine gmppc_congr _ G a b rW (fun c hy => ?_)
          exact rOther c (b - 1) (Or.inl (by omega))
        rw [hcell, hM]
        exact ihDone a b haw hb1

/-- The full cost pass: dimensions, pixels and tags are preserved, and
afterwards every in-bounds cell satisfies the path-cost recurrence with
its energy equal to the gradient energy of the (unchanged) pixels. -/
theorem calculate_energy_spec (g : Grid) :
    ((calculate_energy g).width = g.width ∧ (calculate_energy g).height = g.height) ∧
    (∀ a b, ((calculate_energy g).cells a b).pixel = (g.cells a b).pixel ∧
      ((calculate_energy g).cells a b).original_position = (g.cells a b).original_position) ∧
    (∀ a b, a < g.width → b < g.height →
      (((calculate_energy g).cells a b).energy = energyOf g a b ∧
        ((calculate_energy g).cells a b).path_cost =
          (get_min_parent_path_cost (calculate_energy g) a b +
            ((calculate_energy g).cells a b).energy) % 4294967296)) := by
  have h := outer_pass_spec g g.height
  exact ⟨h.1, h.2.1, fun a b ha hb => h.2.2.2 a b ha hb⟩

theorem square_gradient_self (t : PEP) : t.square_gradient t = 0 := by
  simp [PEP.square_gradient, pixel_square_gradient, natAbsDiff]

theorem gmppc_zero (g : Grid) (x : Nat) : get_min_parent_path_cost g x 0 = 0 := by
  simp [get_min_parent_path_cost, Grid.get_parents_indexed, min_u32]

theorem pixel_square_gradient_self (p : Pixel) : pixel_square_gradient p p = 0 := by
  simp [pixel_square_gradient, natAbsDiff]

theorem stripe_opposite (y : Nat) (h1 : 1 ≤ y) :
    pixel_square_gradient (stripe_pixel (y - 1)) (stripe_pixel (y + 1)) = 260100 := by
  unfold stripe_pixel
  by_cases h : (y - 1) % 4 < 2
  · rw [if_pos h, if_neg (by omega : ¬((y + 1) % 4 < 2))]
    decide
  · rw [if_neg h, if_pos (by omega : (y + 1) % 4 < 2)]
    decide

theorem tall_energyOf_interior (y : Nat) (h1 : 1 ≤ y) (h2 : y + 1 < 16600) :
    energyOf tall_grid 0 y = 260100 := by
  have hy0 : ¬(y = 0) := by omega
  show PEP.square_gradient
      (if 0 = 0 then tall_grid.cells (0 + 1) y else tall_grid.cells (0 - 1) y)
      (if 0 + 1 < tall_grid.width then tall_grid.cells (0 + 1) y
        else tall_grid.cells (0 - 1) y) +
    PEP.square_gradient
      (if y = 0 then tall_grid.cells 0 (y + 1) else tall_grid.cells 0 (y - 1))
      (if y + 1 < tall_grid.height then tall_grid.cells 0 (y + 1)
        else tall_grid.cells 0 (y - 1)) = 260100
  rw [if_pos rfl, if_neg (by decide : ¬(0 + 1 < tall_grid.width)), if_neg hy0,
    if_pos (show y + 1 < tall_grid.height from h2)]
  show pixel_square_gradient (stripe_pixel y) (stripe_pixel y) +
      pixel_square_gradient (stripe_pixel (y - 1)) (stripe_pixel (y + 1)) = 260100
  rw [pixel_square_gradient_self, stripe_opposite y h1, Nat.zero_add]

theorem gmppc_width_one (g : Grid) (hW : g.width = 1) (k : Nat) :
    get_min_parent_path_cost g 0 (k + 1) = (g.cells 0 k).path_cost := by
  simp [get_min_parent_path_cost, Grid.get_parents_indexed, hW, min_u32]

/-- Closed form of the accumulated path cost down the stripe column:
row y holds y times the interior energy, reduced modulo 2^32 at every
step by the u32 addition. -/
theorem tall_pc :
    ∀ y, y + 1 < 16600 →
      ((calculate_energy tall_grid).cells 0 y).path_cost = y * 260100 % 4294967296 := by
  have hW : (calculate_energy tall_grid).width = 1 := (calculate_energy_spec tall_grid).1.1
  intro y
  induction y with
  | zero =>
    intro _
    have h := ((calculate_energy_spec tall_grid).2.2 0 0 (by decide) (by decide)).2
    have hE := ((calculate_energy_spec tall_grid).2.2 0 0 (by decide) (by decide)).1
    rw [h, gmppc_zero, hE]
    rw [show energyOf tall_grid 0 0 = 0 from by decide]
  | succ k ih =>
    intro hk
    have h := ((calculate_energy_spec tall_grid).2.2 0 (k + 1) (by decide)
      (show k + 1 < tall_grid.height by show k + 1 < 16600; omega)).2
    have hE := ((calculate_energy_spec tall_grid).2.2 0 (k + 1) (by decide)
      (show k + 1 < tall_grid.height by show k + 1 < 16600; omega)).1
    rw [h, gmppc_width_one (calculate_energy tall_grid) hW k, hE,
      tall_energyOf_interior (k + 1) (by omega) (by omega), ih (by omega),
      Nat.mod_add_mod]
    have harith : k * 260100 + 260100 = (k + 1) * 260100 := by ring
    rw [harith]

/-- Claim C2 counterexample: on a reachable 1 by 16600 full-contrast
stripe image the u32 path-cost accumulation wraps past 2^32, and at
row 16513 the stored path cost (64004) is strictly below the cell's
energy (260100) — refuting both the exact recurrence
path_cost = energy + min parent path cost and path_cost >= energy. -/
theorem c2_u32_wrap_counterexample :
    ((calculate_energy tall_grid).cells 0 16513).path_cost <
      ((calculate_energy tall_grid).cells 0 16513).energy := by
  have hpc := tall_pc 16513 (by omega)
  have hE : ((calculate_energy tall_grid).cells 0 16513).energy = 260100 := by
    have h := ((calculate_energy_spec tall_grid).2.2 0 16513 (by decide) (by decide)).1
    rw [h]
    exact tall_energyOf_interior 16513 (by omega) (by omega)
  rw [hpc, hE]
  decide

/-- Claim C2 amended: after a full cost pass every in-bounds cell
satisfies the recurrence modulo 2^32 — path_cost is the u32 sum of its
energy and the minimum parent path cost — with the top row reducing to
energy modulo 2^32; whenever that sum stays below 2^32 (every image
whose accumulated seam cost fits in u32, hence every image of modest
height) the exact recurrence and path_cost ≥ energy hold. -/
theorem c2_amended_path_cost_recurrence (g : Grid) (x y : Nat) (hx : x < g.width)
    (hy : y < g.height) :
    ((calculate_energy g).cells x y).path_cost =
      (((calculate_energy g).cells x y).energy +
        get_min_parent_path_cost (calculate_energy g) x y) % 4294967296 ∧
      (y = 0 → ((calculate_energy g).cells x y).path_cost =
        ((calculate_energy g).cells x y).energy % 4294967296) ∧
      (((calculate_energy g).cells x y).energy +
          get_min_parent_path_cost (calculate_energy g) x y < 4294967296 →
        ((calculate_energy g).cells x y).path_cost =
          ((calculate_energy g).cells x y).energy +
            get_min_parent_path_cost (calculate_energy g) x y ∧
          ((calculate_energy g).cells x y).energy ≤
            ((calculate_energy g).cells x y).path_cost) := by
  have h := ((calculate_energy_spec g).2.2 x y hx hy).2
  refine ⟨by omega, fun hy0 => ?_, fun hlt => ⟨by omega, by omega⟩⟩
  subst hy0
  have h0 := gmppc_zero (calculate_energy g) x
  omega

theorem c2_amended_path_cost_recurrence_witness :
    (1 < (Grid.from_image img22).width ∧ 1 < (Grid.from_image img22).height) ∧
      (((calculate_energy (Grid.from_image img22)).cells 1 1).path_cost =
        (((calculate_energy (Grid.from_image img22)).cells 1 1).energy +
          get_min_parent_path_cost (calculate_energy (Grid.from_image img22)) 1 1) %
            4294967296 ∧
      ((1 : Nat) = 0 →
        ((calculate_energy (Grid.from_image img22)).cells 1 1).path_cost =
          ((calculate_energy (Grid.from_image img22)).cells 1 1).energy % 4294967296) ∧
      (((calculate_energy (Grid.from_image img22)).cells 1 1).energy +
          get_min_parent_path_cost (calculate_energy (Grid.from_image img22)) 1 1 <
            4294967296 →
        ((calculate_energy (Grid.from_image img22)).cells 1 1).path_cost =
          ((calculate_energy (Grid.from_image img22)).cells 1 1).energy +
            get_min_parent_path_cost (calculate_energy (Grid.from_image img22)) 1 1 ∧
        ((calculate_energy (Grid.from_image img22)).cells 1 1).energy ≤
          ((calculate_energy (Grid.from_image img22)).cells 1 1).path_cost)) :=
  ⟨⟨by decide, by decide⟩,
    c2_amended_path_cost_recurrence (Grid.from_image img22) 1 1 (by decide) (by decide)⟩

/-- Claim C8: after a full cost pass, the energy of every in-bounds cell
of a grid with both dimensions at least 2 is the horizontal plus the
vertical square gradient, where a border along an axis makes that
gradient 0 (the missing neighbor is replaced by the opposite one), and
an interior cell uses its true neighbors — never a wrapped-around far
edge. -/
theorem c8_energy_edge_policy (g : Grid) (x y : Nat) (hw : 2 ≤ g.width) (hh : 2 ≤ g.height)
    (hx : x < g.width) (hy : y < g.height) :
    ((calculate_energy g).cells x y).energy =
      (if x = 0 ∨ x + 1 = g.width then 0
        else pixel_square_gradient (g.cells (x - 1) y).pixel (g.cells (x + 1) y).pixel) +
      (if y = 0 ∨ y + 1 = g.height then 0
        else pixel_square_gradient (g.cells x (y - 1)).pixel (g.cells x (y + 1)).pixel) := by
  have hE : ((calculate_energy g).cells x y).energy = energyOf g x y :=
    ((calculate_energy_spec g).2.2 x y hx hy).1
  rw [hE]
  simp only [energyOf, Grid.get_adjacent]
  congr 1
  · by_cases hx0 : x = 0
    · have hlt : x + 1 < g.width := by omega
      rw [if_pos hx0, if_pos hlt, if_pos (Or.inl hx0)]
      exact square_gradient_self _
    · by_cases hxe : x + 1 < g.width
      · rw [if_neg hx0, if_pos hxe, if_neg (by omega : ¬(x = 0 ∨ x + 1 = g.width))]
        rfl
      · rw [if_neg hx0, if_neg hxe, if_pos (Or.inr (by omega : x + 1 = g.width))]
        exact square_gradient_self _
  · by_cases hy0 : y = 0
    · have hlt : y + 1 < g.height := by omega
      rw [if_pos hy0, if_pos hlt, if_pos (Or.inl hy0)]
      exact square_gradient_self _
    · by_cases hye : y + 1 < g.height
      · rw [if_neg hy0, if_pos hye, if_neg (by omega : ¬(y = 0 ∨ y + 1 = g.height))]
        rfl
      · rw [if_neg hy0, if_neg hye, if_pos (Or.inr (by omega : y + 1 = g.height))]
        exact square_gradient_self _

theorem c8_energy_edge_policy_witness :
    (2 ≤ (Grid.from_image img22).width ∧ 2 ≤ (Grid.from_image img22).height ∧
        0 < (Grid.from_image img22).width ∧ 1 < (Grid.from_image img22).height) ∧
      ((calculate_energy (Grid.from_image img22)).cells 0 1).energy =
        (if (0 : Nat) = 0 ∨ 0 + 1 = (Grid.from_image img22).width then 0
          else pixel_square_gradient ((Grid.from_image img22).cells (0 - 1) 1).pixel
            ((Grid.from_image img22).cells (0 + 1) 1).pixel) +
        (if (1 : Nat) = 0 ∨ 1 + 1 = (Grid.from_image img22).height then 0
          else pixel_square_gradient ((Grid.from_image img22).cells 0 (1 - 1)).pixel
            ((Grid.from_image img22).cells 0 (1 + 1)).pixel) :=
  ⟨⟨by decide, by decide, by decide, by decide⟩,
    c8_energy_edge_policy (Grid.from_image img22) 0 1 (by decide) (by decide) (by decide)
      (by decide)⟩

/-! Facts about the Rust min_by_key fold: the first minimal element wins. -/

theorem min_fold_mem (key : α → Nat) :
    ∀ (l : List α) (a : α), l.foldl (fun b c => if key c < key b then c else b) a ∈ a :: l := by
  intro l
  induction l with
  | nil => intro a; simp
  | cons c t ih =>
    intro a
    simp only [List.foldl_cons]
    rcases List.mem_cons.mp (ih (if key c < key a then c else a)) with h1 | h1
    · rw [h1]
      split_ifs
      · exact List.mem_cons_of_mem _ (List.mem_cons_self _ _)
      · exact List.mem_cons_self _ _
    · exact List.mem_cons_of_mem _ (List.mem_cons_of_mem _ h1)

theorem min_by_key_mem (key : α → Nat) (l : List α) (r : α) (h : min_by_key key l = some r) :
    r ∈ l := by
  cases l with
  | nil => simp [min_by_key] at h
  | cons a t =>
    simp only [min_by_key, Option.some.injEq] at h
    rw [← h]
    exact min_fold_mem key t a

theorem min_by_key_two (key : α → Nat) (a b : α) :
    min_by_key key [a, b] = some (if key b < key a then b else a) := rfl

theorem min_by_key_three (key : α → Nat) (a b c : α) :
    min_by_key key [a, b, c] =
      some (if key c < key (if key b < key a then b else a) then c
        else if key b < key a then b else a) := rfl

theorem min_by_key_concat (key : α → Nat) (l : List α) (a : α) :
    min_by_key key (l ++ [a]) =
      some (match min_by_key key l with
        | none => a
        | some r => if key a < key r then a else r) := by
  cases l with
  | nil => rfl
  | cons b t =>
    simp only [min_by_key, List.cons_append, List.foldl_append, List.foldl_cons, List.foldl_nil]

/-- The minimum of the fold over a mapped range: the result is the image
of the least index attaining the minimum key. -/
theorem min_by_key_range (key : α → Nat) (f : Nat → α) :
    ∀ n, 1 ≤ n →
      ∃ i, i < n ∧ min_by_key key ((List.range n).map f) = some (f i) ∧
        (∀ j, j < n → key (f i) ≤ key (f j)) ∧ (∀ j, j < i → key (f i) < key (f j)) := by
  intro n
  induction n with
  | zero => omega
  | succ n ih =>
    intro _
    by_cases hn : 1 ≤ n
    · obtain ⟨i, hi, hmin, hle, hlt⟩ := ih hn
      have hconcat : min_by_key key ((List.range (n + 1)).map f) =
          some (if key (f n) < key (f i) then f n else f i) := by
        rw [List.range_succ, List.map_append]
        simp only [List.map_cons, List.map_nil]
        rw [min_by_key_concat key ((List.range n).map f) (f n), hmin]
      by_cases hc : key (f n) < key (f i)
      · refine ⟨n, by omega, by rw [hconcat, if_pos hc], fun j hj => ?_, fun j hj => ?_⟩
        · by_cases hjn : j = n
          · subst hjn; exact le_refl _
          · exact le_trans (le_of_lt hc) (hle j (by omega))
        · exact lt_of_lt_of_le hc (hle j (by omega))
      · refine ⟨i, by omega, by rw [hconcat, if_neg hc], fun j hj => ?_, hlt⟩
        by_cases hjn : j = n
        · subst hjn; omega
        · exact hle j (by omega)
    · have hn0 : n = 0 := by omega
      subst hn0
      refine ⟨0, by omega, rfl, fun j hj => ?_, fun j hj => by omega⟩
      have hj0 : j = 0 := by omega
      subst hj0
      exact le_refl _

theorem enum_map_range (f : Nat → α) :
    ∀ n, ((List.range n).map f).enum = (List.range n).map (fun i => (i, f i)) := by
  intro n
  induction n with
  | zero => rfl
  | succ n ih =>
    rw [List.range_succ, List.map_append, List.enum_append, ih, List.map_append]
    simp

/-- The seam start: the leftmost bottom-row cell of minimal path cost. -/
theorem get_path_start_spec (g : Grid) (hw : 1 ≤ g.width) :
    (get_path_start g).2 = g.height - 1 ∧ (get_path_start g).1 < g.width ∧
      (∀ j, j < g.width →
        (g.cells (get_path_start g).1 (g.height - 1)).path_cost ≤
          (g.cells j (g.height - 1)).path_cost) ∧
      (∀ j, j < (get_path_start g).1 →
        (g.cells (get_path_start g).1 (g.height - 1)).path_cost <
          (g.cells j (g.height - 1)).path_cost) := by
  obtain ⟨i, hi, hmin, hle, hlt⟩ := min_by_key_range (fun t : Nat × PEP => t.2.path_cost)
    (fun x => (x, g.cells x (g.height - 1))) g.width hw
  have hrow : (g.get_row (g.height - 1)).enum =
      (List.range g.width).map (fun x => (x, g.cells x (g.height - 1))) := by
    rw [Grid.get_row, enum_map_range]
  have hgps : get_path_start g = (i, g.height - 1) := by
    simp only [get_path_start, hrow, hmin]
  rw [hgps]
  exact ⟨rfl, hi, fun j hj => hle j hj, fun j hj => hlt j hj⟩

/-- At row 0 there is no parent. -/
theorem parent_none (g : Grid) (x : Nat) : get_parent_with_min_path_cost g x 0 = none := by
  simp [get_parent_with_min_path_cost, Grid.get_parents_indexed, min_by_key]

/-- Below row 0 the chosen parent exists, lies one row up within one
column, is of minimal path cost among the parents, and is the leftmost
parent attaining that minimum. -/
theorem parent_min_spec (g : Grid) (x y : Nat) (hx : x < g.width) (hy : 1 ≤ y) :
    ∃ p, get_parent_with_min_path_cost g x y = some p ∧ p.2 = y - 1 ∧ p.1 < g.width ∧
      x ≤ p.1 + 1 ∧ p.1 ≤ x + 1 ∧
      (∀ q ∈ g.get_parents_indexed x y, (g.cells p.1 p.2).path_cost ≤ q.2.2.path_cost) ∧
      (∀ q ∈ g.get_parents_indexed x y, q.1 < p.1 →
        (g.cells p.1 p.2).path_cost < q.2.2.path_cost) := by
  obtain ⟨k, rfl⟩ : ∃ k, y = k + 1 := ⟨y - 1, by omega⟩
  by_cases hx0 : x = 0
  · subst hx0
    by_cases hxw : 0 + 1 < g.width
    · have hlist : g.get_parents_indexed 0 (k + 1) =
          [(0, k, g.cells 0 k), (1, k, g.cells 1 k)] := by
        simp [Grid.get_parents_indexed, hxw]
      by_cases hc : (g.cells 1 k).path_cost < (g.cells 0 k).path_cost
      · refine ⟨(1, k), ?_, rfl, by omega, by omega, by omega, ?_, ?_⟩
        · simp [get_parent_with_min_path_cost, hlist, min_by_key_two, hc]
        · intro q hq
          rw [hlist] at hq
          simp only [List.mem_cons, List.mem_singleton, List.not_mem_nil, or_false] at hq
          rcases hq with rfl | rfl <;> dsimp only <;> omega
        · intro q hq hq1
          rw [hlist] at hq
          simp only [List.mem_cons, List.mem_singleton, List.not_mem_nil, or_false] at hq
          rcases hq with rfl | rfl <;> dsimp only at hq1 ⊢ <;> omega
      · refine ⟨(0, k), ?_, rfl, by omega, by omega, by omega, ?_, ?_⟩
        · simp [get_parent_with_min_path_cost, hlist, min_by_key_two, hc]
        · intro q hq
          rw [hlist] at hq
          simp only [List.mem_cons, List.mem_singleton, List.not_mem_nil, or_false] at hq
          rcases hq with rfl | rfl <;> dsimp only <;> omega
        · intro q hq hq1
          rw [hlist] at hq
          simp only [List.mem_cons, List.mem_singleton, List.not_mem_nil, or_false] at hq
          rcases hq with rfl | rfl <;> dsimp only at hq1 ⊢ <;> omega
    · have hlist : g.get_parents_indexed 0 (k + 1) = [(0, k, g.cells 0 k)] := by
        simp [Grid.get_parents_indexed, hxw]
      refine ⟨(0, k), ?_, rfl, by omega, by omega, by omega, ?_, ?_⟩
      · simp [get_parent_with_min_path_cost, hlist, min_by_key]
      · intro q hq
        rw [hlist] at hq
        simp only [List.mem_singleton] at hq
        subst hq
        dsimp only
        omega
      · intro q hq hq1
        rw [hlist] at hq
        simp only [List.mem_singleton] at hq
        subst hq
        dsimp only at hq1 ⊢
        omega
  · by_cases hxw : x + 1 < g.width
    · have hlist : g.get_parents_indexed x (k + 1) =
          [(x - 1, k, g.cells (x - 1) k), (x, k, g.cells x k),
            (x + 1, k, g.cells (x + 1) k)] := by
        simp [Grid.get_parents_indexed, hx0, hxw]
      by_cases h1 : (g.cells x k).path_cost < (g.cells (x - 1) k).path_cost
      · by_cases h2 : (g.cells (x + 1) k).path_cost < (g.cells x k).path_cost
        · refine ⟨(x + 1, k), ?_, rfl, by omega, by omega, by omega, ?_, ?_⟩
          · simp [get_parent_with_min_path_cost, hlist, min_by_key_three, h1, h2]
          · intro q hq
            rw [hlist] at hq
            simp only [List.mem_cons, List.mem_singleton, List.not_mem_nil, or_false] at hq
            rcases hq with rfl | rfl | rfl <;> dsimp only <;> omega
          · intro q hq hq1
            rw [hlist] at hq
            simp only [List.mem_cons, List.mem_singleton, List.not_mem_nil, or_false] at hq
            rcases hq with rfl | rfl | rfl <;> dsimp only at hq1 ⊢ <;> omega
        · refine ⟨(x, k), ?_, rfl, by omega, by omega, by omega, ?_, ?_⟩
          · simp [get_parent_with_min_path_cost, hlist, min_by_key_three, h1, h2]
          · intro q hq
            rw [hlist] at hq
            simp only [List.mem_cons, List.mem_singleton, List.not_mem_nil, or_false] at hq
            rcases hq with rfl | rfl | rfl <;> dsimp only <;> omega
          · intro q hq hq1
            rw [hlist] at hq
            simp only [List.mem_cons, List.mem_singleton, List.not_mem_nil, or_false] at hq
            rcases hq with rfl | rfl | rfl <;> dsimp only at hq1 ⊢ <;> omega
      · by_cases h2 : (g.cells (x + 1) k).path_cost < (g.cells (x - 1) k).path_cost
        · refine ⟨(x + 1, k), ?_, rfl, by omega, by omega, by omega, ?_, ?_⟩
          · simp [get_parent_with_min_path_cost, hlist, min_by_key_three, h1, h2]
          · intro q hq
            rw [hlist] at hq
            simp only [List.mem_cons, List.mem_singleton, List.not_mem_nil, or_false] at hq
            rcases hq with rfl | rfl | rfl <;> dsimp only <;> omega
          · intro q hq hq1
            rw [hlist] at hq
            simp only [List.mem_cons, List.mem_singleton, List.not_mem_nil, or_false] at hq
            rcases hq with rfl | rfl | rfl <;> dsimp only at hq1 ⊢ <;> omega
        · refine ⟨(x - 1, k), ?_, rfl, by omega, by omega, by omega, ?_, ?_⟩
          · simp [get_parent_with_min_path_cost, hlist, min_by_key_three, h1, h2]
          · intro q hq
            rw [hlist] at hq
            simp only [List.mem_cons, List.mem_singleton, List.not_mem_nil, or_false] at hq
            rcases hq with rfl | rfl | rfl <;> dsimp only <;> omega
          · intro q hq hq1
            rw [hlist] at hq
            simp only [List.mem_cons, List.mem_singleton, List.not_mem_nil, or_false] at hq
            rcases hq with rfl | rfl | rfl <;> dsimp only at hq1 ⊢ <;> omega
    · have hlist : g.get_parents_indexed x (k + 1) =
          [(x - 1, k, g.cells (x - 1) k), (x, k, g.cells x k)] := by
        simp [Grid.get_parents_indexed, hx0, hxw]
      by_cases h1 : (g.cells x k).path_cost < (g.cells (x - 1) k).path_cost
      · refine ⟨(x, k), ?_, rfl, by omega, by omega, by omega, ?_, ?_⟩
        · simp [get_parent_with_min_path_cost, hlist, min_by_key_two, h1]
        · intro q hq
          rw [hlist] at hq
          simp only [List.mem_cons, List.mem_singleton, List.not_mem_nil, or_false] at hq
          rcases hq with rfl | rfl <;> dsimp only <;> omega
        · intro q hq hq1
          rw [hlist] at hq
          simp only [List.mem_cons, List.mem_singleton, List.not_mem_nil, or_false] at hq
          rcases hq with rfl | rfl <;> dsimp only at hq1 ⊢ <;> omega
      · refine ⟨(x - 1, k), ?_, rfl, by omega, by omega, by omega, ?_, ?_⟩
        · simp [get_parent_with_min_path_cost, hlist, min_by_key_two, h1]
        · intro q hq
          rw [hlist] at hq
          simp only [List.mem_cons, List.mem_singleton, List.not_mem_nil, or_false] at hq
          rcases hq with rfl | rfl <;> dsimp only <;> omega
        · intro q hq hq1
          rw [hlist] at hq
          simp only [List.mem_cons, List.mem_singleton, List.not_mem_nil, or_false] at hq
          rcases hq with rfl | rfl <;> dsimp only at hq1 ⊢ <;> omega

/-- Claim C1: after a full cost pass, the seam start chosen by
get_path_start is the bottom-row cell of minimal path cost with ties
broken by the lowest column index, and at every backtracking step the
parent chosen by get_parent_with_min_path_cost is the parent of
minimal path cost, again leftmost on ties. -/
theorem c1_leftmost_selection (g : Grid) (hw : 1 ≤ g.width) :
    ((get_path_start (calculate_energy g)).2 = (calculate_energy g).height - 1 ∧
      (get_path_start (calculate_energy g)).1 < (calculate_energy g).width ∧
      (∀ j, j < (calculate_energy g).width →
        ((calculate_energy g).cells (get_path_start (calculate_energy g)).1
            ((calculate_energy g).height - 1)).path_cost ≤
          ((calculate_energy g).cells j ((calculate_energy g).height - 1)).path_cost) ∧
      (∀ j, j < (get_path_start (calculate_energy g)).1 →
        ((calculate_energy g).cells (get_path_start (calculate_energy g)).1
            ((calculate_energy g).height - 1)).path_cost <
          ((calculate_energy g).cells j ((calculate_energy g).height - 1)).path_cost)) ∧
    (∀ x y, x < (calculate_energy g).width → 1 ≤ y →
      ∃ p, get_parent_with_min_path_cost (calculate_energy g) x y = some p ∧
        p.2 = y - 1 ∧ p.1 < (calculate_energy g).width ∧ x ≤ p.1 + 1 ∧ p.1 ≤ x + 1 ∧
        (∀ q ∈ (calculate_energy g).get_parents_indexed x y,
          ((calculate_energy g).cells p.1 p.2).path_cost ≤ q.2.2.path_cost) ∧
        (∀ q ∈ (calculate_energy g).get_parents_indexed x y, q.1 < p.1 →
          ((calculate_energy g).cells p.1 p.2).path_cost < q.2.2.path_cost)) := by
  have hW : (calculate_energy g).width = g.width := (calculate_energy_spec g).1.1
  constructor
  · exact get_path_start_spec (calculate_energy g) (by omega)
  · exact fun x y hx hy => parent_min_spec (calculate_energy g) x y hx hy

theorem c1_leftmost_selection_witness :
    1 ≤ (Grid.from_image img32).width ∧
      (((get_path_start (calculate_energy (Grid.from_image img32))).2 =
          (calculate_energy (Grid.from_image img32)).height - 1 ∧
        (get_path_start (calculate_energy (Grid.from_image img32))).1 <
          (calculate_energy (Grid.from_image img32)).width ∧
        (∀ j, j < (calculate_energy (Grid.from_image img32)).width →
          ((calculate_energy (Grid.from_image img32)).cells
              (get_path_start (calculate_energy (Grid.from_image img32))).1
              ((calculate_energy (Grid.from_image img32)).height - 1)).path_cost ≤
            ((calculate_energy (Grid.from_image img32)).cells j
              ((calculate_energy (Grid.from_image img32)).height - 1)).path_cost) ∧
        (∀ j, j < (get_path_start (calculate_energy (Grid.from_image img32))).1 →
          ((calculate_energy (Grid.from_image img32)).cells
              (get_path_start (calculate_energy (Grid.from_image img32))).1
              ((calculate_energy (Grid.from_image img32)).height - 1)).path_cost <
            ((calculate_energy (Grid.from_image img32)).cells j
              ((calculate_energy (Grid.from_image img32)).height - 1)).path_cost)) ∧
      (∀ x y, x < (calculate_energy (Grid.from_image img32)).width → 1 ≤ y →
        ∃ p, get_parent_with_min_path_cost (calculate_energy (Grid.from_image img32)) x y =
            some p ∧
          p.2 = y - 1 ∧ p.1 < (calculate_energy (Grid.from_image img32)).width ∧
          x ≤ p.1 + 1 ∧ p.1 ≤ x + 1 ∧
          (∀ q ∈ (calculate_energy (Grid.from_image img32)).get_parents_indexed x y,
            ((calculate_energy (Grid.from_image img32)).cells p.1 p.2).path_cost ≤
              q.2.2.path_cost) ∧
          (∀ q ∈ (calculate_energy (Grid.from_image img32)).get_parents_indexed x y,
            q.1 < p.1 →
              ((calculate_energy (Grid.from_image img32)).cells p.1 p.2).path_cost <
                q.2.2.path_cost))) :=
  ⟨by decide, c1_leftmost_selection (Grid.from_image img32) (by decide)⟩

/-- Every unfolding of the backtracking loop starts with its own cell. -/
theorem find_path_go_head (g : Grid) (x y fuel : Nat) :
    ∃ rest, find_path_go g x y fuel = (x, y) :: rest := by
  cases fuel with
  | zero =>
    cases hopt : get_parent_with_min_path_cost g x y with
    | none => exact ⟨[], by simp [find_path_go, hopt]⟩
    | some p => exact ⟨[], by simp [find_path_go, hopt]⟩
  | succ f =>
    cases hopt : get_parent_with_min_path_cost g x y with
    | none => exact ⟨[], by simp [find_path_go, hopt]⟩
    | some p => exact ⟨find_path_go g p.1 p.2 f, by simp [find_path_go, hopt]⟩

/-- Structure of the backtracked path: with fuel at least the starting
row, the rows are exactly y, y-1, ..., 0, every column is in bounds,
and consecutive columns differ by at most 1. -/
theorem find_path_go_spec (g : Grid) :
    ∀ y fuel x, y ≤ fuel → x < g.width →
      (find_path_go g x y fuel).map Prod.snd = (List.range (y + 1)).reverse ∧
      (∀ q ∈ find_path_go g x y fuel, q.1 < g.width) ∧
      cols_adjacent (find_path_go g x y fuel) := by
  intro y
  induction y with
  | zero =>
    intro fuel x hfuel hx
    have heq : find_path_go g x 0 fuel = [(x, 0)] := by
      cases fuel <;> simp [find_path_go, parent_none]
    rw [heq]
    refine ⟨by simp [List.range_succ], ?_, by simp [cols_adjacent]⟩
    intro q hq
    simp only [List.mem_singleton] at hq
    subst hq
    exact hx
  | succ k ih =>
    intro fuel x hfuel hx
    obtain ⟨f, rfl⟩ : ∃ f, fuel = f + 1 := ⟨fuel - 1, by omega⟩
    obtain ⟨p, hsome, hp2, hp1w, hxle, hple, hmin1, hmin2⟩ :=
      parent_min_spec g x (k + 1) hx (by omega)
    obtain ⟨p1, p2⟩ := p
    dsimp only at hp2 hp1w hxle hple
    have hp2k : k = p2 := by omega
    subst hp2k
    have heq : find_path_go g x (k + 1) (f + 1) = (x, k + 1) :: find_path_go g p1 k f := by
      simp [find_path_go, hsome]
    obtain ⟨hmap, hmem, hadj⟩ := ih f p1 (by omega) hp1w
    obtain ⟨rest, hrest⟩ := find_path_go_head g p1 k f
    refine ⟨?_, ?_, ?_⟩
    · rw [heq, List.map_cons, hmap]
      simp [List.range_succ]
    · intro q hq
      rw [heq] at hq
      rcases List.mem_cons.mp hq with rfl | hq1
      · exact hx
      · exact hmem q hq1
    · rw [heq, hrest]
      rw [hrest] at hadj
      exact ⟨⟨by dsimp only; omega, by dsimp only; omega⟩, hadj⟩

/-- Claim C3: after a full cost pass on a nonempty grid, the extracted
cheapest seam has exactly height points, its rows are height-1 down to
0 each exactly once, its columns stay in bounds, and the columns of
adjacent rows differ by at most 1. -/
theorem c3_seam_shape (g : Grid) (hw : 1 ≤ g.width) (hh : 1 ≤ g.height) :
    (find_path (calculate_energy g) (get_path_start (calculate_energy g)).1
        (get_path_start (calculate_energy g)).2).length = g.height ∧
      (find_path (calculate_energy g) (get_path_start (calculate_energy g)).1
          (get_path_start (calculate_energy g)).2).map Prod.snd =
        (List.range g.height).reverse ∧
      (∀ q ∈ find_path (calculate_energy g) (get_path_start (calculate_energy g)).1
          (get_path_start (calculate_energy g)).2, q.1 < g.width) ∧
      cols_adjacent (find_path (calculate_energy g) (get_path_start (calculate_energy g)).1
        (get_path_start (calculate_energy g)).2) := by
  have hW : (calculate_energy g).width = g.width := (calculate_energy_spec g).1.1
  have hH : (calculate_energy g).height = g.height := (calculate_energy_spec g).1.2
  obtain ⟨hs2, hs1, _, _⟩ := get_path_start_spec (calculate_energy g) (by omega)
  have hsy : (get_path_start (calculate_energy g)).2 = g.height - 1 := by rw [hs2, hH]
  obtain ⟨hmap, hmem, hadj⟩ := find_path_go_spec (calculate_energy g)
    (get_path_start (calculate_energy g)).2 (get_path_start (calculate_energy g)).2
    (get_path_start (calculate_energy g)).1 (le_refl _) hs1
  have hlen : (find_path (calculate_energy g) (get_path_start (calculate_energy g)).1
      (get_path_start (calculate_energy g)).2).length = g.height := by
    have h1 := congrArg List.length hmap
    simp only [List.length_map, List.length_reverse, List.length_range] at h1
    rw [find_path]
    rw [h1, hsy]
    omega
  refine ⟨hlen, ?_, ?_, ?_⟩
  · rw [find_path, hmap, hsy]
    have : g.height - 1 + 1 = g.height := by omega
    rw [this]
  · intro q hq
    rw [find_path] at hq
    have := hmem q hq
    omega
  · rw [find_path]
    exact hadj

theorem c3_seam_shape_witness :
    (1 ≤ (Grid.from_image img32).width ∧ 1 ≤ (Grid.from_image img32).height) ∧
      ((find_path (calculate_energy (Grid.from_image img32))
          (get_path_start (calculate_energy (Grid.from_image img32))).1
          (get_path_start (calculate_energy (Grid.from_image img32))).2).length =
        (Grid.from_image img32).height ∧
      (find_path (calculate_energy (Grid.from_image img32))
          (get_path_start (calculate_energy (Grid.from_image img32))).1
          (get_path_start (calculate_energy (Grid.from_image img32))).2).map Prod.snd =
        (List.range (Grid.from_image img32).height).reverse ∧
      (∀ q ∈ find_path (calculate_energy (Grid.from_image img32))
          (get_path_start (calculate_energy (Grid.from_image img32))).1
          (get_path_start (calculate_energy (Grid.from_image img32))).2,
        q.1 < (Grid.from_image img32).width) ∧
      cols_adjacent (find_path (calculate_energy (Grid.from_image img32))
        (get_path_start (calculate_energy (Grid.from_image img32))).1
        (get_path_start (calculate_energy (Grid.from_image img32))).2)) :=
  ⟨⟨by decide, by decide⟩,
    c3_seam_shape (Grid.from_image img32) (by decide) (by decide)⟩

/-! Dimension bookkeeping for shrink, grow and resize. -/

theorem remove_fold_dims (pts : List (Nat × Nat)) :
    ∀ c : Carver, ((pts.foldl remove_step c).grid.width = c.grid.width ∧
      (pts.foldl remove_step c).grid.height = c.grid.height) := by
  induction pts with
  | nil => intro c; exact ⟨rfl, rfl⟩
  | cons p t ih =>
    intro c
    rw [List.foldl_cons]
    exact ⟨(ih (remove_step c p)).1, (ih (remove_step c p)).2⟩

theorem remove_path_dims (c : Carver) (pts : List (Nat × Nat)) :
    (remove_path c pts).grid.width = c.grid.width - 1 ∧
      (remove_path c pts).grid.height = c.grid.height := by
  have h := remove_fold_dims pts c
  simp only [remove_path, Grid.remove_last_column]
  exact ⟨by rw [h.1], h.2⟩

theorem shrink_step_dims (c : Carver) :
    (shrink_step c).grid.width = c.grid.width - 1 ∧
      (shrink_step c).grid.height = c.grid.height := by
  have hW : (calculate_energy c.grid).width = c.grid.width := (calculate_energy_spec c.grid).1.1
  have hH : (calculate_energy c.grid).height = c.grid.height := (calculate_energy_spec c.grid).1.2
  simp only [shrink_step]
  have h := remove_path_dims { c with grid := calculate_energy c.grid }
    (find_path (calculate_energy c.grid) (get_path_start (calculate_energy c.grid)).1
      (get_path_start (calculate_energy c.grid)).2)
  exact ⟨by rw [h.1]; rw [hW], by rw [h.2]; exact hH⟩

theorem shrink_distance_dims :
    ∀ (d : Nat) (c : Carver), (shrink_distance c d).grid.width = c.grid.width - d ∧
      (shrink_distance c d).grid.height = c.grid.height := by
  intro d
  induction d with
  | zero => intro c; exact ⟨by simp [shrink_distance], rfl⟩
  | succ d ih =>
    intro c
    have h1 := shrink_step_dims c
    have h2 := ih (shrink_step c)
    refine ⟨?_, ?_⟩
    · show (shrink_distance (shrink_step c) d).grid.width = c.grid.width - (d + 1)
      rw [h2.1, h1.1]
      omega
    · show (shrink_distance (shrink_step c) d).grid.height = c.grid.height
      rw [h2.2, h1.2]

theorem add_columns_dims :
    ∀ (d : Nat) (g : Grid), (add_columns g d).width = g.width + d ∧
      (add_columns g d).height = g.height := by
  intro d
  induction d with
  | zero => intro g; exact ⟨rfl, rfl⟩
  | succ d ih =>
    intro g
    have h := ih g.add_last_column
    refine ⟨?_, ?_⟩
    · show (add_columns g.add_last_column d).width = g.width + (d + 1)
      rw [h.1]
      simp [Grid.add_last_column]
      omega
    · exact h.2

theorem grow_fold_dims (pts : List (Nat × Nat)) :
    ∀ c : Carver, ((pts.foldl grow_step c).grid.width = c.grid.width ∧
      (pts.foldl grow_step c).grid.height = c.grid.height) := by
  induction pts with
  | nil => intro c; exact ⟨rfl, rfl⟩
  | cons p t ih =>
    intro c
    rw [List.foldl_cons]
    exact ⟨(ih (grow_step c p)).1, (ih (grow_step c p)).2⟩

theorem grow_distance_dims (c : Carver) (d : Nat) :
    (grow_distance c d).grid.width = c.grid.width + d ∧
      (grow_distance c d).grid.height = c.grid.height := by
  simp only [grow_distance]
  have h1 := grow_fold_dims (get_points_removed_by_shrink c d)
    { c with grid := add_columns c.grid d }
  have h2 := add_columns_dims d c.grid
  exact ⟨by rw [h1.1]; exact h2.1, by rw [h1.2]; exact h2.2⟩

theorem width_phase_dims (c : Carver) (w : Nat) :
    (resize_width_phase c w).grid.width = w ∧
      (resize_width_phase c w).grid.height = c.grid.height := by
  unfold resize_width_phase
  split_ifs with h1 h2
  · have h := grow_distance_dims c (w - c.grid.width)
    exact ⟨by rw [h.1]; omega, h.2⟩
  · have h := shrink_distance_dims (c.grid.width - w) c
    exact ⟨by rw [h.1]; omega, h.2⟩
  · exact ⟨by omega, rfl⟩

theorem height_phase_dims (c1 : Carver) (ih h : Nat) (hih : c1.grid.height = ih) :
    (resize_height_phase c1 ih h).grid.width = c1.grid.width ∧
      (resize_height_phase c1 ih h).grid.height = h := by
  unfold resize_height_phase
  split_ifs with h1 h2
  · have hg := grow_distance_dims { c1 with grid := c1.grid.rotate } (h - ih)
    constructor
    · show (grow_distance { c1 with grid := c1.grid.rotate } (h - ih)).grid.height = c1.grid.width
      rw [hg.2]
      rfl
    · show (grow_distance { c1 with grid := c1.grid.rotate } (h - ih)).grid.width = h
      rw [hg.1]
      show c1.grid.height + (h - ih) = h
      omega
  · have hg := shrink_distance_dims (ih - h) { c1 with grid := c1.grid.rotate }
    constructor
    · show (shrink_distance { c1 with grid := c1.grid.rotate } (ih - h)).grid.height = c1.grid.width
      rw [hg.2]
      rfl
    · show (shrink_distance { c1 with grid := c1.grid.rotate } (ih - h)).grid.width = h
      rw [hg.1]
      show c1.grid.height - (ih - h) = h
      omega
  · exact ⟨rfl, by omega⟩

/-- The produced carver and image always have exactly the requested
dimensions. -/
theorem resize_dims (c : Carver) (w h : Nat) :
    (Carver.resize c w h).1.grid.width = w ∧ (Carver.resize c w h).1.grid.height = h ∧
      (Carver.resize c w h).2.width = w ∧ (Carver.resize c w h).2.height = h := by
  have h1 := width_phase_dims c w
  have h2 := height_phase_dims (resize_width_phase c w) c.grid.height h h1.2
  simp only [Carver.resize, rebuild_image]
  exact ⟨by rw [h2.1, h1.1], h2.2, by rw [h2.1, h1.1], h2.2⟩

/-- Claim C4: the resize dimension contract — a shrink by d followed by
a grow by d restores the original image dimensions, growing always
yields exactly the requested width regardless of pixel content, and a
target equal to the current size on both axes is a no-op. -/
theorem c4_resize_dimension_contract (c : Carver) (d : Nat) (hd : d < c.grid.width) :
    ((Carver.resize (Carver.resize c (c.grid.width - d) c.grid.height).1 c.grid.width
        c.grid.height).2.width = c.grid.width ∧
      (Carver.resize (Carver.resize c (c.grid.width - d) c.grid.height).1 c.grid.width
        c.grid.height).2.height = c.grid.height) ∧
    (∀ (c2 : Carver) (e : Nat),
      (Carver.resize c2 (c2.grid.width + e) c2.grid.height).2.width = c2.grid.width + e ∧
      (Carver.resize c2 (c2.grid.width + e) c2.grid.height).2.height = c2.grid.height) ∧
    (∀ c3 : Carver, Carver.resize c3 c3.grid.width c3.grid.height = (c3, rebuild_image c3.grid)) := by
  refine ⟨?_, ?_, ?_⟩
  · have h := resize_dims (Carver.resize c (c.grid.width - d) c.grid.height).1 c.grid.width
      c.grid.height
    exact ⟨h.2.2.1, h.2.2.2⟩
  · intro c2 e
    have h := resize_dims c2 (c2.grid.width + e) c2.grid.height
    exact ⟨h.2.2.1, h.2.2.2⟩
  · intro c3
    simp [Carver.resize, resize_width_phase, resize_height_phase]

theorem c4_resize_dimension_contract_witness :
    1 < (Carver.new img32).grid.width ∧
      (((Carver.resize
            (Carver.resize (Carver.new img32) ((Carver.new img32).grid.width - 1)
              (Carver.new img32).grid.height).1
            (Carver.new img32).grid.width (Carver.new img32).grid.height).2.width =
          (Carver.new img32).grid.width ∧
        (Carver.resize
            (Carver.resize (Carver.new img32) ((Carver.new img32).grid.width - 1)
              (Carver.new img32).grid.height).1
            (Carver.new img32).grid.width (Carver.new img32).grid.height).2.height =
          (Carver.new img32).grid.height) ∧
      (∀ (c2 : Carver) (e : Nat),
        (Carver.resize c2 (c2.grid.width + e) c2.grid.height).2.width = c2.grid.width + e ∧
        (Carver.resize c2 (c2.grid.width + e) c2.grid.height).2.height = c2.grid.height) ∧
      (∀ c3 : Carver,
        Carver.resize c3 c3.grid.width c3.grid.height = (c3, rebuild_image c3.grid))) :=
  ⟨by decide, c4_resize_dimension_contract (Carver.new img32) 1 (by decide)⟩

theorem avg_channel_exact (a b : Nat) (ha : a < 256) (hb : b < 256) :
    avg_channel a b = (a + b) / 2 := by
  unfold avg_channel
  omega

/-- Claim C9: for u8-valued pixels, average_pixels is exactly the
per-channel floor average — the u16 widening can never wrap and the u8
narrowing can never truncate — and the concrete example from the spec
holds; average_pixel_from_neighbors is that average of the left pixel
and the right neighbor's pixel. -/
theorem c9_average_insertion (p1 p2 : Pixel)
    (h1 : p1.c0 < 256 ∧ p1.c1 < 256 ∧ p1.c2 < 256 ∧ p1.c3 < 256)
    (h2 : p2.c0 < 256 ∧ p2.c1 < 256 ∧ p2.c2 < 256 ∧ p2.c3 < 256) :
    average_pixels p1 p2 = spec_average_pixels p1 p2 ∧
      average_pixels { c0 := 10, c1 := 20, c2 := 30, c3 := 255 }
          { c0 := 20, c1 := 30, c2 := 40, c3 := 255 } =
        { c0 := 15, c1 := 25, c2 := 35, c3 := 255 } ∧
      (∀ (g : Grid) (x y : Nat) (left : Pixel),
        average_pixel_from_neighbors g x y left =
          average_pixels left (g.cells (x + 1) y).pixel) := by
  obtain ⟨ha1, hb1, hc1, hd1⟩ := h1
  obtain ⟨ha2, hb2, hc2, hd2⟩ := h2
  refine ⟨?_, by decide, fun g x y left => rfl⟩
  simp only [average_pixels, spec_average_pixels]
  rw [avg_channel_exact _ _ ha1 ha2, avg_channel_exact _ _ hb1 hb2,
    avg_channel_exact _ _ hc1 hc2, avg_channel_exact _ _ hd1 hd2]

theorem c9_average_insertion_witness :
    (((10 : Nat) < 256 ∧ (20 : Nat) < 256 ∧ (30 : Nat) < 256 ∧ (255 : Nat) < 256) ∧
        ((20 : Nat) < 256 ∧ (30 : Nat) < 256 ∧ (40 : Nat) < 256 ∧ (255 : Nat) < 256)) ∧
      (average_pixels { c0 := 10, c1 := 20, c2 := 30, c3 := 255 }
          { c0 := 20, c1 := 30, c2 := 40, c3 := 255 } =
        spec_average_pixels { c0 := 10, c1 := 20, c2 := 30, c3 := 255 }
          { c0 := 20, c1 := 30, c2 := 40, c3 := 255 } ∧
      average_pixels { c0 := 10, c1 := 20, c2 := 30, c3 := 255 }
          { c0 := 20, c1 := 30, c2 := 40, c3 := 255 } =
        { c0 := 15, c1 := 25, c2 := 35, c3 := 255 } ∧
      (∀ (g : Grid) (x y : Nat) (left : Pixel),
        average_pixel_from_neighbors g x y left =
          average_pixels left (g.cells (x + 1) y).pixel)) :=
  ⟨⟨by decide, by decide⟩,
    c9_average_insertion { c0 := 10, c1 := 20, c2 := 30, c3 := 255 }
      { c0 := 20, c1 := 30, c2 := 40, c3 := 255 } (by decide) (by decide)⟩

/-- Claim C5 counterexample: Carver::new performs no dimension check —
applied to a 0 by 0 buffer it returns an ordinary carver with a 0 by 0
grid (its Rust signature has no failure channel at all) — and resize
with a target width of 0 runs the full shrink loop, mutating the grid
down to width 0, instead of aborting with an InvalidDimensions error
before mutating state. -/
theorem c5_no_validation_counterexample :
    (Carver.new img00).grid.width = 0 ∧ (Carver.new img00).grid.height = 0 ∧
      (Carver.new img00).removed_points = [] ∧
      (Carver.resize (Carver.new img22) 0 2).1.grid.width = 0 :=
  ⟨rfl, rfl, rfl, (resize_dims (Carver.new img22) 0 2).1⟩

/-- Claim C5 amended: no dimension validation exists — Carver::new
always succeeds, building a grid of exactly the buffer's dimensions
(zero included) with no recorded points, and a resize to width 0 is
executed as an ordinary shrink that mutates the grid to width 0; no
InvalidDimensions error is surfaced anywhere in src/carve.rs. -/
theorem c5_amended_no_validation (img : Image) :
    (Carver.new img).grid.width = img.width ∧ (Carver.new img).grid.height = img.height ∧
      (Carver.new img).removed_points = [] ∧
      ∀ (c : Carver) (h : Nat), (Carver.resize c 0 h).1.grid.width = 0 :=
  ⟨rfl, rfl, rfl, fun c h => (resize_dims c 0 h).1⟩

/-! The removed-point list only ever grows: every operation appends. -/

theorem remove_fold_append (pts : List (Nat × Nat)) :
    ∀ c : Carver, ∃ l, (pts.foldl remove_step c).removed_points = c.removed_points ++ l := by
  induction pts with
  | nil => intro c; exact ⟨[], by simp⟩
  | cons p t ih =>
    intro c
    obtain ⟨l, hl⟩ := ih (remove_step c p)
    refine ⟨[(c.grid.cells p.1 p.2).original_position] ++ l, ?_⟩
    rw [List.foldl_cons, hl]
    simp [remove_step]

theorem grow_fold_append (pts : List (Nat × Nat)) :
    ∀ c : Carver, ∃ l, (pts.foldl grow_step c).removed_points = c.removed_points ++ l := by
  induction pts with
  | nil => intro c; exact ⟨[], by simp⟩
  | cons p t ih =>
    intro c
    obtain ⟨l, hl⟩ := ih (grow_step c p)
    refine ⟨[(c.grid.cells p.1 p.2).original_position] ++ l, ?_⟩
    rw [List.foldl_cons, hl]
    simp [grow_step, add_point]

theorem shrink_step_append (c : Carver) :
    ∃ l, (shrink_step c).removed_points = c.removed_points ++ l := by
  obtain ⟨l, hl⟩ := remove_fold_append
    (find_path (calculate_energy c.grid) (get_path_start (calculate_energy c.grid)).1
      (get_path_start (calculate_energy c.grid)).2)
    { c with grid := calculate_energy c.grid }
  exact ⟨l, hl⟩

theorem shrink_distance_append :
    ∀ (d : Nat) (c : Carver),
      ∃ l, (shrink_distance c d).removed_points = c.removed_points ++ l := by
  intro d
  induction d with
  | zero => intro c; exact ⟨[], by simp [shrink_distance]⟩
  | succ d ih =>
    intro c
    obtain ⟨l1, hl1⟩ := shrink_step_append c
    obtain ⟨l2, hl2⟩ := ih (shrink_step c)
    refine ⟨l1 ++ l2, ?_⟩
    show (shrink_distance (shrink_step c) d).removed_points = _
    rw [hl2, hl1, List.append_assoc]

theorem grow_distance_append (c : Carver) (d : Nat) :
    ∃ l, (grow_distance c d).removed_points = c.removed_points ++ l := by
  obtain ⟨l, hl⟩ := grow_fold_append (get_points_removed_by_shrink c d)
    { c with grid := add_columns c.grid d }
  exact ⟨l, hl⟩

theorem width_phase_append (c : Carver) (w : Nat) :
    ∃ l, (resize_width_phase c w).removed_points = c.removed_points ++ l := by
  unfold resize_width_phase
  split_ifs with h1 h2
  · exact grow_distance_append c (w - c.grid.width)
  · exact shrink_distance_append (c.grid.width - w) c
  · exact ⟨[], by simp⟩

theorem height_phase_append (c1 : Carver) (ih h : Nat) :
    ∃ l, (resize_height_phase c1 ih h).removed_points = c1.removed_points ++ l := by
  unfold resize_height_phase
  split_ifs with h1 h2
  · obtain ⟨l, hl⟩ := grow_distance_append { c1 with grid := c1.grid.rotate } (h - ih)
    exact ⟨l, hl⟩
  · obtain ⟨l, hl⟩ := shrink_distance_append (ih - h) { c1 with grid := c1.grid.rotate }
    exact ⟨l, hl⟩
  · exact ⟨[], by simp⟩

theorem resize_points_append (c : Carver) (w h : Nat) :
    ∃ l, (Carver.resize c w h).1.removed_points = c.removed_points ++ l := by
  obtain ⟨l1, hl1⟩ := width_phase_append c w
  obtain ⟨l2, hl2⟩ := height_phase_append (resize_width_phase c w) c.grid.height h
  refine ⟨l1 ++ l2, ?_⟩
  show (resize_height_phase (resize_width_phase c w) c.grid.height h).removed_points = _
  rw [hl2, hl1, List.append_assoc]

/-- Claim C6 counterexample: the recorded points accumulate across
resize calls — after a second shrinking resize the list still starts
with the two points recorded by the first call and has length 4, so it
is not the set of coordinates touched by the most recent call alone. -/
theorem c6_accumulation_counterexample :
    (Carver.resize (Carver.new img32) 2 2).1.removed_points.length = 2 ∧
      (Carver.resize (Carver.resize (Carver.new img32) 2 2).1 1 2).1.removed_points.length = 4 ∧
      (Carver.resize (Carver.resize (Carver.new img32) 2 2).1 1 2).1.removed_points.take 2 =
        (Carver.resize (Carver.new img32) 2 2).1.removed_points := by
  refine ⟨?_, ?_, ?_⟩ <;> decide

/-- Claim C6 amended: get_removed_points returns the list of points
accumulated by ALL resize calls since construction — every resize call
appends its recorded points to the existing list and nothing ever
clears it — and the accessor is pure: it simply returns (a clone of)
the stored list, mutating nothing. -/
theorem c6_points_accumulate (c : Carver) (w h : Nat) :
    (Carver.resize c w h).1.removed_points.take c.removed_points.length =
      c.removed_points ∧
      Carver.get_removed_points c = c.removed_points := by
  obtain ⟨l, hl⟩ := resize_points_append c w h
  refine ⟨?_, rfl⟩
  rw [hl]
  exact List.take_left c.removed_points l

theorem width_phase_noop (c : Carver) : resize_width_phase c c.grid.width = c := by
  simp [resize_width_phase]

/-- Claim C10: on a resize that only changes the height, the points the
vertical phase records are exactly those produced by the shrink (or
grow) run on the rotated carver, appended verbatim —
rotate_removed_points, which would swap each pair back to image space,
is never invoked on any path through resize. -/
theorem c10_vertical_points_not_unrotated (c : Carver) (w h2 : Nat) (hw : w = c.grid.width)
    (hh : h2 < c.grid.height) :
    (Carver.resize c w h2).1.removed_points =
      (shrink_distance { grid := c.grid.rotate, removed_points := c.removed_points }
        (c.grid.height - h2)).removed_points ∧
      (∀ h3 : Nat, c.grid.height < h3 →
        (Carver.resize c w h3).1.removed_points =
          (grow_distance { grid := c.grid.rotate, removed_points := c.removed_points }
            (h3 - c.grid.height)).removed_points) ∧
      (∀ c2 : Carver, (rotate_removed_points c2).removed_points =
        c2.removed_points.map (fun p => (p.2, p.1))) := by
  subst hw
  have hwp : resize_width_phase c c.grid.width = c := width_phase_noop c
  refine ⟨?_, ?_, fun c2 => rfl⟩
  · show (resize_height_phase (resize_width_phase c c.grid.width) c.grid.height h2).removed_points
      = _
    rw [hwp]
    unfold resize_height_phase
    rw [if_neg (by omega), if_pos hh]
  · intro h3 hh3
    show (resize_height_phase (resize_width_phase c c.grid.width) c.grid.height h3).removed_points
      = _
    rw [hwp]
    unfold resize_height_phase
    rw [if_pos hh3]

theorem c10_vertical_points_not_unrotated_witness :
    ((2 : Nat) = (Carver.new img23).grid.width ∧ 2 < (Carver.new img23).grid.height) ∧
      ((Carver.resize (Carver.new img23) 2 2).1.removed_points =
        (shrink_distance
          { grid := (Carver.new img23).grid.rotate
            removed_points := (Carver.new img23).removed_points }
          ((Carver.new img23).grid.height - 2)).removed_points ∧
      (∀ h3 : Nat, (Carver.new img23).grid.height < h3 →
        (Carver.resize (Carver.new img23) 2 h3).1.removed_points =
          (grow_distance
            { grid := (Carver.new img23).grid.rotate
              removed_points := (Carver.new img23).removed_points }
            (h3 - (Carver.new img23).grid.height)).removed_points) ∧
      (∀ c2 : Carver, (rotate_removed_points c2).removed_points =
        c2.removed_points.map (fun p => (p.2, p.1)))) :=
  ⟨⟨by decide, by decide⟩,
    c10_vertical_points_not_unrotated (Carver.new img23) 2 2 (by decide) (by decide)⟩

/-! Machinery for claim C7: position tags record original coordinates. -/

theorem shift_cells (g : Grid) (x y a b : Nat) :
    (shift_row_left_from_point g x y).cells a b =
      if b = y ∧ x ≤ a then g.cells (a + 1) b else g.cells a b := rfl

theorem shift_other_row (g : Grid) (x y a b : Nat) (h : b ≠ y) :
    (shift_row_left_from_point g x y).cells a b = g.cells a b := by
  simp [shift_row_left_from_point, h]

theorem TagsOk_reset (g : Grid) : TagsOk (reset_positions g) (reset_positions g) := by
  refine ⟨rfl, le_refl _, ?_⟩
  intro x hx y hy
  have hx2 : x < g.width := hx
  have hy2 : y < g.height := hy
  have hcell : (reset_positions g).cells x y =
      { g.cells x y with original_position := (x, y) } := by
    simp [reset_positions, hx2, hy2]
  rw [hcell]
  exact ⟨rfl, le_refl _, hx2, by rw [hcell]⟩

theorem TagsOk_calculate_energy (g0 g : Grid) (h : TagsOk g0 g) :
    TagsOk g0 (calculate_energy g) := by
  obtain ⟨hh, hw, hcells⟩ := h
  have hspec := calculate_energy_spec g
  refine ⟨by rw [hspec.1.2]; exact hh, by rw [hspec.1.1]; exact hw, ?_⟩
  intro x hx y hy
  rw [hspec.1.1] at hx
  rw [hspec.1.2] at hy
  have hpt := hspec.2.1 x y
  rw [hpt.1, hpt.2]
  exact hcells x hx y hy

theorem remove_fold_records (pts : List (Nat × Nat)) :
    ∀ c : Carver, pts.Pairwise (fun p q => p.2 ≠ q.2) →
      (pts.foldl remove_step c).removed_points =
        c.removed_points ++ pts.map (fun p => (c.grid.cells p.1 p.2).original_position) := by
  induction pts with
  | nil => intro c _; simp
  | cons p t ih =>
    intro c hpw
    have hhead := (List.pairwise_cons.mp hpw).1
    have htail := (List.pairwise_cons.mp hpw).2
    rw [List.foldl_cons, ih (remove_step c p) htail]
    have hmap : t.map (fun q => ((remove_step c p).grid.cells q.1 q.2).original_position) =
        t.map (fun q => (c.grid.cells q.1 q.2).original_position) := by
      apply List.map_congr_left
      intro q hq
      have hne : q.2 ≠ p.2 := fun he => hhead q hq he.symm
      show ((shift_row_left_from_point c.grid p.1 p.2).cells q.1 q.2).original_position = _
      rw [shift_other_row c.grid p.1 p.2 q.1 q.2 hne]
    rw [hmap]
    show (c.removed_points ++ [(c.grid.cells p.1 p.2).original_position]) ++ _ = _
    rw [List.map_cons, List.append_assoc]
    rfl

theorem remove_path_records (c : Carver) (pts : List (Nat × Nat))
    (hpw : pts.Pairwise (fun p q => p.2 ≠ q.2)) :
    (remove_path c pts).removed_points =
      c.removed_points ++ pts.map (fun p => (c.grid.cells p.1 p.2).original_position) := by
  show (pts.foldl remove_step c).removed_points = _
  exact remove_fold_records pts c hpw

theorem remove_fold_grid (pts : List (Nat × Nat)) :
    ∀ c : Carver, (pts.foldl remove_step c).grid =
      pts.foldl (fun g p => shift_row_left_from_point g p.1 p.2) c.grid := by
  induction pts with
  | nil => intro c; rfl
  | cons p t ih =>
    intro c
    rw [List.foldl_cons, List.foldl_cons]
    exact ih (remove_step c p)

theorem shift_fold_cells (pts : List (Nat × Nat)) :
    ∀ (g : Grid) (a b : Nat), pts.Pairwise (fun p q => p.2 ≠ q.2) →
      (pts.foldl (fun g2 p => shift_row_left_from_point g2 p.1 p.2) g).cells a b =
        if ∃ q ∈ pts, q.2 = b ∧ q.1 ≤ a then g.cells (a + 1) b else g.cells a b := by
  induction pts with
  | nil =>
    intro g a b _
    simp
  | cons p t ih =>
    intro g a b hpw
    have hhead := (List.pairwise_cons.mp hpw).1
    have htail := (List.pairwise_cons.mp hpw).2
    rw [List.foldl_cons, ih (shift_row_left_from_point g p.1 p.2) a b htail]
    by_cases ht : ∃ q ∈ t, q.2 = b ∧ q.1 ≤ a
    · rw [if_pos ht]
      obtain ⟨q, hqt, hqb, hqa⟩ := ht
      have hbp : b ≠ p.2 := by
        intro hbp
        exact (hhead q hqt) (by rw [hqb, hbp])
      rw [if_pos (⟨q, List.mem_cons_of_mem p hqt, hqb, hqa⟩ :
        ∃ q2 ∈ p :: t, q2.2 = b ∧ q2.1 ≤ a)]
      exact shift_other_row g p.1 p.2 (a + 1) b hbp
    · rw [if_neg ht, shift_cells]
      by_cases hp : b = p.2 ∧ p.1 ≤ a
      · rw [if_pos hp, if_pos (⟨p, List.mem_cons_self p t, hp.1.symm, hp.2⟩ :
          ∃ q2 ∈ p :: t, q2.2 = b ∧ q2.1 ≤ a)]
      · rw [if_neg hp, if_neg ?hno]
        case hno =>
          rintro ⟨q, hq, hqb, hqa⟩
          rcases List.mem_cons.mp hq with rfl | hq2
          · exact hp ⟨hqb.symm, hqa⟩
          · exact ht ⟨q, hq2, hqb, hqa⟩

theorem TagsOk_remove_path (g0 : Grid) (c : Carver) (pts : List (Nat × Nat))
    (h : TagsOk g0 c.grid) (hpw : pts.Pairwise (fun p q => p.2 ≠ q.2)) :
    TagsOk g0 (remove_path c pts).grid := by
  obtain ⟨hh, hw, hcells⟩ := h
  have hdim := remove_path_dims c pts
  refine ⟨by rw [hdim.2]; exact hh, by rw [hdim.1]; omega, ?_⟩
  intro a ha b hb
  rw [hdim.1] at ha
  rw [hdim.2] at hb
  have hcell : (remove_path c pts).grid.cells a b =
      (pts.foldl (fun g2 p => shift_row_left_from_point g2 p.1 p.2) c.grid).cells a b := by
    show ((pts.foldl remove_step c).grid.remove_last_column).cells a b = _
    rw [remove_fold_grid pts c]
    rfl
  rw [hcell, shift_fold_cells pts c.grid a b hpw]
  by_cases hs : ∃ q ∈ pts, q.2 = b ∧ q.1 ≤ a
  · rw [if_pos hs]
    have ha1 : a + 1 < c.grid.width := by omega
    obtain ⟨t1, t2, t3, t4⟩ := hcells (a + 1) ha1 b hb
    exact ⟨t1, by omega, t3, t4⟩
  · rw [if_neg hs]
    exact hcells a (by omega) b hb

/-- Claim C7: in a shrink step from a grid whose tags satisfy the
original-position invariant (as established by reset_positions, or by
construction from an image), remove_path records for every seam cell
the cell's original_position — a coordinate in the same row, at or to
the right of the cell's current column, that addresses in the
reference grid g0 the very pixel the cell carries (its pre-shift
position) — and the invariant is preserved for the next seam. -/
theorem c7_recorded_original_positions (g0 : Grid) (c : Carver) (htags : TagsOk g0 c.grid)
    (hw : 1 ≤ c.grid.width) (hh : 1 ≤ c.grid.height) :
    (shrink_step c).removed_points =
      c.removed_points ++
        (find_path (calculate_energy c.grid) (get_path_start (calculate_energy c.grid)).1
            (get_path_start (calculate_energy c.grid)).2).map
          (fun q => ((calculate_energy c.grid).cells q.1 q.2).original_position) ∧
      (∀ q ∈ find_path (calculate_energy c.grid) (get_path_start (calculate_energy c.grid)).1
          (get_path_start (calculate_energy c.grid)).2,
        ((calculate_energy c.grid).cells q.1 q.2).original_position.2 = q.2 ∧
          q.1 ≤ ((calculate_energy c.grid).cells q.1 q.2).original_position.1 ∧
          ((calculate_energy c.grid).cells q.1 q.2).original_position.1 < g0.width ∧
          (g0.cells (((calculate_energy c.grid).cells q.1 q.2).original_position.1)
              q.2).pixel = ((calculate_energy c.grid).cells q.1 q.2).pixel) ∧
      TagsOk g0 (shrink_step c).grid := by
  have hspec := calculate_energy_spec c.grid
  have htags2 : TagsOk g0 (calculate_energy c.grid) := TagsOk_calculate_energy g0 c.grid htags
  have hW2 : (calculate_energy c.grid).width = c.grid.width := hspec.1.1
  have hH2 : (calculate_energy c.grid).height = c.grid.height := hspec.1.2
  obtain ⟨hs2, hs1, _, _⟩ := get_path_start_spec (calculate_energy c.grid) (by omega)
  obtain ⟨hmap, hmem, _⟩ := find_path_go_spec (calculate_energy c.grid)
    (get_path_start (calculate_energy c.grid)).2 (get_path_start (calculate_energy c.grid)).2
    (get_path_start (calculate_energy c.grid)).1 (le_refl _) hs1
  have hfp : find_path (calculate_energy c.grid) (get_path_start (calculate_energy c.grid)).1
      (get_path_start (calculate_energy c.grid)).2 =
      find_path_go (calculate_energy c.grid) (get_path_start (calculate_energy c.grid)).1
        (get_path_start (calculate_energy c.grid)).2
        (get_path_start (calculate_energy c.grid)).2 := rfl
  have hrows : ∀ q ∈ find_path (calculate_energy c.grid)
      (get_path_start (calculate_energy c.grid)).1 (get_path_start (calculate_energy c.grid)).2,
      q.2 < (calculate_energy c.grid).height := by
    intro q hq
    have h1 : q.2 ∈ (find_path_go (calculate_energy c.grid)
        (get_path_start (calculate_energy c.grid)).1 (get_path_start (calculate_energy c.grid)).2
        (get_path_start (calculate_energy c.grid)).2).map Prod.snd :=
      List.mem_map_of_mem Prod.snd (hfp ▸ hq)
    rw [hmap] at h1
    have h2 := List.mem_range.mp (List.mem_reverse.mp h1)
    omega
  have hpw : (find_path (calculate_energy c.grid) (get_path_start (calculate_energy c.grid)).1
      (get_path_start (calculate_energy c.grid)).2).Pairwise (fun p q => p.2 ≠ q.2) := by
    have hnd : ((find_path_go (calculate_energy c.grid)
        (get_path_start (calculate_energy c.grid)).1 (get_path_start (calculate_energy c.grid)).2
        (get_path_start (calculate_energy c.grid)).2).map Prod.snd).Nodup := by
      rw [hmap]
      exact List.nodup_reverse.mpr (List.nodup_range _)
    rw [hfp]
    exact List.pairwise_map.mp hnd
  refine ⟨?_, ?_, ?_⟩
  · show (remove_path { c with grid := calculate_energy c.grid }
        (find_path (calculate_energy c.grid) (get_path_start (calculate_energy c.grid)).1
          (get_path_start (calculate_energy c.grid)).2)).removed_points = _
    rw [remove_path_records _ _ hpw]
  · intro q hq
    have hq1 : q.1 < (calculate_energy c.grid).width := hmem q (hfp ▸ hq)
    have hq2 : q.2 < (calculate_energy c.grid).height := hrows q hq
    exact htags2.2.2 q.1 hq1 q.2 hq2
  · exact TagsOk_remove_path g0 { c with grid := calculate_energy c.grid } _ htags2 hpw

theorem c7_recorded_original_positions_witness :
    (TagsOk (Grid.from_image img22) (Carver.new img22).grid ∧
        1 ≤ (Carver.new img22).grid.width ∧ 1 ≤ (Carver.new img22).grid.height) ∧
      ((shrink_step (Carver.new img22)).removed_points =
        (Carver.new img22).removed_points ++
          (find_path (calculate_energy (Carver.new img22).grid)
              (get_path_start (calculate_energy (Carver.new img22).grid)).1
              (get_path_start (calculate_energy (Carver.new img22).grid)).2).map
            (fun q =>
              ((calculate_energy (Carver.new img22).grid).cells q.1 q.2).original_position) ∧
      (∀ q ∈ find_path (calculate_energy (Carver.new img22).grid)
          (get_path_start (calculate_energy (Carver.new img22).grid)).1
          (get_path_start (calculate_energy (Carver.new img22).grid)).2,
        ((calculate_energy (Carver.new img22).grid).cells q.1 q.2).original_position.2 = q.2 ∧
          q.1 ≤ ((calculate_energy (Carver.new img22).grid).cells q.1 q.2).original_position.1 ∧
          ((calculate_energy (Carver.new img22).grid).cells q.1 q.2).original_position.1 <
            (Grid.from_image img22).width ∧
          ((Grid.from_image img22).cells
              (((calculate_energy (Carver.new img22).grid).cells q.1
                  q.2).original_position.1) q.2).pixel =
            ((calculate_energy (Carver.new img22).grid).cells q.1 q.2).pixel) ∧
      TagsOk (Grid.from_image img22) (shrink_step (Carver.new img22)).grid) :=
  ⟨⟨by decide, by decide, by decide⟩,
    c7_recorded_original_positions (Grid.from_image img22) (Carver.new img22) (by decide)
      (by decide) (by decide)⟩

end SeamCarve
